import Mathlib

/-!
# Receipt points service: a verification development

Shallow embedding of `tutorial.go` (package `main`): the points calculator
`computePoints` with its helpers `countAlphanumeric`, `isAlphaNumeric` and
`parsePrice`, the package variable `store` and the two handlers
`handleReceipt` and `calculatePointsWithPoints`, together with the parts of
the Go standard library they call (`strconv.ParseFloat`, `math.Floor`,
`math.Ceil`, `math.Mod`, `time.Parse`, `strings.TrimSpace`,
`strings.TrimPrefix`, `strings.TrimSuffix`, float64 arithmetic and the `int`
type).

Modelling conventions.

* A Go `string` is modelled by a Lean `String`, a sequence of Unicode scalar
  values, that is, a valid UTF-8 string.  Every string field of a `Receipt`
  is produced by `encoding/json`, which only yields valid UTF-8.  `len(s)` is
  the number of bytes of the UTF-8 encoding (`goLen`); `range s` iterates over
  the characters.
* A `float64` is modelled by `F64`: NaN, a signed infinity, or a signed
  dyadic number `m * 2^e`.  Operations round to nearest, ties to even, with
  the float64 precision (53 bits), exponent range and gradual underflow.
* Go `int` is the 64-bit two's-complement type: additions on `points` wrap
  (`wrapInt`).  Converting a float64 that does not fit an `int` is
  implementation-dependent in Go; that behaviour is a parameter (`Arch`).
* The map `store` is a partial function passed through the handlers, which
  are run one after the other.  The JSON decoder and the identifier generator
  are parameters of `handleReceipt`.
-/

namespace ReceiptAPI

/-! ## Go strings -/

/-- Number of bytes of the UTF-8 encoding of a character. -/
def utf8Len (c : Char) : Nat :=
  if c.toNat < 0x80 then 1
  else if c.toNat < 0x800 then 2
  else if c.toNat < 0x10000 then 3
  else 4

/-- Go `len(s)` for a string: its length in bytes. -/
def goLen (s : List Char) : Nat :=
  (s.map utf8Len).sum

/-- The predicate `unicode.IsSpace`: the Latin-1 spaces `\t \n \v \f \r`, space,
U+0085, U+00A0, and the other code points with the White_Space property. -/
def isSpace (c : Char) : Bool :=
  let n := c.toNat
  (0x09 ≤ n && n ≤ 0x0D) || n == 0x20 || n == 0x85 || n == 0xA0 || n == 0x1680 ||
  (0x2000 ≤ n && n ≤ 0x200A) || n == 0x2028 || n == 0x2029 || n == 0x202F ||
  n == 0x205F || n == 0x3000

/-- Go `strings.TrimSpace`: the string without its leading and trailing white space. -/
def TrimSpace (s : List Char) : List Char :=
  ((s.dropWhile isSpace).reverse.dropWhile isSpace).reverse

/-- An ASCII decimal digit, as tested by `'0' <= c && c <= '9'`. -/
def isDigit (c : Char) : Bool :=
  48 ≤ c.toNat && c.toNat ≤ 57

/-- Value of an ASCII decimal digit, `c - '0'`. -/
def digitVal (c : Char) : Nat :=
  c.toNat - 48

/-! ## float64 -/

/-- A float64 value: NaN, an infinity with its sign, or a finite value
`(-1)^neg * m * 2^e`.  The representation of a finite value is not unique;
every operation below depends on the value only. -/
inductive F64 where
  | nan : F64
  | inf (neg : Bool) : F64
  | fin (neg : Bool) (m : Nat) (e : Int) : F64
deriving DecidableEq

namespace F64

/-- Positive zero. -/
def zero : F64 := .fin false 0 0

/-- The constant `0.25`, exactly `1 * 2^-2`. -/
def quarter : F64 := .fin false 1 (-2)

/-- The constant `0.2` as a float64, the nearest one to `1/5`: the bits
`0x3FC999999999999A`, that is `0x1999999999999A * 2^-55`. -/
def fifth : F64 := .fin false 7205759403792794 (-55)

/-- Number of binary digits of `n` added to `acc`, with explicit fuel. -/
def bitLenAux : Nat → Nat → Nat → Nat
  | 0, _, acc => acc
  | fuel + 1, n, acc => if n = 0 then acc else bitLenAux fuel (n / 2) (acc + 1)

/-- Number of binary digits of `n`: `2^(bitLen n - 1) ≤ n < 2^(bitLen n)` for `n > 0`. -/
def bitLen (n : Nat) : Nat := bitLenAux n n 0

/-- The integer `E` with `2^E ≤ n/d < 2^(E+1)`, for positive `n` and `d`. -/
def floorLog2 (n d : Nat) : Int :=
  let a := bitLen n
  let b := bitLen d
  if d * 2 ^ a ≤ n * 2 ^ b then (a : Int) - b else (a : Int) - b - 1

/-- The integer nearest to `num / den`, ties going to the even one. -/
def roundNearestEven (num den : Nat) : Nat :=
  let q := num / den
  let r := num % den
  if 2 * r < den then q
  else if den < 2 * r then q + 1
  else if q % 2 = 0 then q else q + 1

/-- The float64 nearest to `(-1)^neg * n / d` (ties to even): 53 significant
bits, least exponent `-1074` (gradual underflow), and an infinity when the
rounded value reaches `2^1024`. -/
def ofRat (neg : Bool) (n d : Nat) : F64 :=
  if n = 0 then .fin neg 0 0
  else
    let e := max (floorLog2 n d - 52) (-1074)
    let m := roundNearestEven (n * 2 ^ (-e).toNat) (d * 2 ^ e.toNat)
    if 971 < e ∨ (e = 971 ∧ 2 ^ 53 ≤ m) then .inf neg else .fin neg m e

/-- The float64 product `x * y`. -/
def mul : F64 → F64 → F64
  | .fin s m e, .fin t k f =>
    ofRat (xor s t) (m * k * 2 ^ (e + f).toNat) (2 ^ (-(e + f)).toNat)
  | .fin s m _, .inf t => if m = 0 then .nan else .inf (xor s t)
  | .inf s, .fin t k _ => if k = 0 then .nan else .inf (xor s t)
  | .inf s, .inf t => .inf (xor s t)
  | _, _ => .nan

/-- Go `math.Floor`: the greatest integer value not above `x`; NaN, the
infinities and the zeros are returned unchanged. -/
def floor : F64 → F64
  | .nan => .nan
  | .inf s => .inf s
  | .fin false m e => .fin false (m * 2 ^ e.toNat / 2 ^ (-e).toNat) 0
  | .fin true m e =>
    .fin true ((m * 2 ^ e.toNat + 2 ^ (-e).toNat - 1) / 2 ^ (-e).toNat) 0

/-- Go `math.Ceil`: the least integer value not below `x`; NaN, the
infinities and the zeros are returned unchanged. -/
def ceil : F64 → F64
  | .nan => .nan
  | .inf s => .inf s
  | .fin false m e =>
    .fin false ((m * 2 ^ e.toNat + 2 ^ (-e).toNat - 1) / 2 ^ (-e).toNat) 0
  | .fin true m e => .fin true (m * 2 ^ e.toNat / 2 ^ (-e).toNat) 0

/-- Go `math.Mod(x, y)`: the remainder of `x / y`, with the sign of `x`.
`Mod(±Inf, y)`, `Mod(NaN, y)`, `Mod(x, 0)` and `Mod(x, NaN)` are NaN and
`Mod(x, ±Inf)` is `x`.  The remainder of two finite values is exact. -/
def mod : F64 → F64 → F64
  | .nan, _ => .nan
  | .inf _, _ => .nan
  | .fin _ _ _, .nan => .nan
  | .fin s m e, .inf _ => .fin s m e
  | .fin s m e, .fin _ k f =>
    if k = 0 then .nan
    else
      let g := min e f
      .fin s ((m * 2 ^ (e - g).toNat) % (k * 2 ^ (f - g).toNat)) g

/-- Go `x == y` on float64: NaN equals nothing, the two zeros are equal. -/
def eq : F64 → F64 → Bool
  | .inf s, .inf t => s == t
  | .fin s m e, .fin t k f =>
    let g := min e f
    let a := m * 2 ^ (e - g).toNat
    let b := k * 2 ^ (f - g).toNat
    a == b && (s == t || a == 0)
  | _, _ => false

/-- The integer part of a finite value, rounded toward zero. -/
def trunc (neg : Bool) (m : Nat) (e : Int) : Int :=
  let t : Int := ((m * 2 ^ e.toNat / 2 ^ (-e).toNat : Nat) : Int)
  if neg then -t else t

/-- The rational number a finite float64 stands for (`0` for NaN and the infinities). -/
def toRat : F64 → ℚ
  | .fin neg m e => (if neg then -1 else 1) * (m : ℚ) * (2 : ℚ) ^ e
  | _ => 0

/-- A finite value. -/
def isFinite : F64 → Bool
  | .fin _ _ _ => true
  | _ => false

end F64

/-! ## The `int` type -/

/-- The least `int`, `-2^63`. -/
def minInt : Int := -9223372036854775808

/-- The greatest `int`, `2^63 - 1`. -/
def maxInt : Int := 9223372036854775807

/-- Reduction of an integer into the `int` range modulo `2^64`: the result
of a 64-bit two's-complement operation whose exact result is `x`. -/
def wrapInt (x : Int) : Int :=
  (x + 9223372036854775808) % 18446744073709551616 - 9223372036854775808

/-- What the platform does when a float64 that is NaN, infinite or outside the
`int` range is converted to `int`.  The Go specification leaves the value
implementation-dependent. -/
structure Arch where
  /-- The `int` delivered for a float64 that has no `int` value. -/
  invalidConv : F64 → Int

/-- The amd64 behaviour: every invalid conversion yields `-2^63`. -/
def amd64 : Arch := ⟨fun _ => minInt⟩

/-- The arm64 behaviour: NaN yields `0`, other values saturate. -/
def arm64 : Arch :=
  ⟨fun x => match x with
    | .nan => 0
    | .inf neg => if neg then minInt else maxInt
    | .fin neg _ _ => if neg then minInt else maxInt⟩

/-- Go conversion `int(x)` of a float64: the value rounded toward zero when it
fits in an `int`, otherwise the platform's choice. -/
def toInt (arch : Arch) : F64 → Int
  | .fin neg m e =>
    let t := F64.trunc neg m e
    if minInt ≤ t ∧ t ≤ maxInt then t else wrapInt (arch.invalidConv (.fin neg m e))
  | x => wrapInt (arch.invalidConv x)

/-! ## `strconv.ParseFloat`

The model follows the accepted syntax of `strconv.ParseFloat(s, 64)` (the
special values, decimal and hexadecimal mantissas, exponents, underscores) and
its documented result: the float64 nearest to the number written.  The value
returned with an error is kept, because the callers discard the error. -/

/-- The two errors of `strconv.ParseFloat`. -/
inductive NumError where
  | syntax_ : NumError
  | range_ : NumError
deriving DecidableEq

/-- ASCII lower-casing of a letter.  `strconv` computes `c | 0x20`, which
agrees with it in every comparison made here (with `x`, `e`, `p`, `b`, `o` and
the range `a..f`). -/
def lower (c : Char) : Nat :=
  if 65 ≤ c.toNat ∧ c.toNat ≤ 90 then c.toNat + 32 else c.toNat

/-- Length of the longest common prefix of `s` and the lower-case `word`,
ignoring the case of `s`: `strconv.commonPrefixLenIgnoreCase`. -/
def commonPrefixLenIgnoreCase : List Char → List Char → Nat
  | c :: s, p :: word => if lower c = p.toNat then commonPrefixLenIgnoreCase s word + 1 else 0
  | _, _ => 0

/-- The length of the prefix of `s` that spells `inf` or `infinity`, if any. -/
def infPrefix (s : List Char) : Option Nat :=
  let n := commonPrefixLenIgnoreCase s "infinity".toList
  let n := if 3 < n ∧ n < 8 then 3 else n
  if n = 3 ∨ n = 8 then some n else none

/-- The function `strconv.special`: a special value at the start of `s`, with
the number of characters it takes. -/
def special : List Char → Option (F64 × Nat)
  | [] => none
  | c :: rest =>
    if c = '+' ∨ c = '-' then
      (infPrefix rest).map fun n => (F64.inf (c == '-'), n + 1)
    else if c = 'i' ∨ c = 'I' then
      (infPrefix (c :: rest)).map fun n => (F64.inf false, n)
    else if c = 'n' ∨ c = 'N' then
      if commonPrefixLenIgnoreCase (c :: rest) "nan".toList = 3 then some (F64.nan, 3) else none
    else none

/-- State of the mantissa scan of `strconv.readFloat`. -/
structure Scan where
  /-- An underscore was seen. -/
  underscores : Bool
  /-- A decimal point was seen. -/
  sawdot : Bool
  /-- A digit was seen. -/
  sawdigits : Bool
  /-- Number of digits after the leading zeros. -/
  nd : Nat
  /-- Position of the decimal point, relative to those digits. -/
  dp : Int
  /-- The digits after the leading zeros, as a number. -/
  mantissa : Nat

/-- A hexadecimal letter digit. -/
def isHexLetter (c : Char) : Bool :=
  97 ≤ lower c && lower c ≤ 102

/-- The mantissa loop of `strconv.readFloat`: digits, underscores and at most
one point are consumed; the rest of the input is returned. -/
def readMantissa (hex : Bool) : List Char → Scan → Scan × List Char
  | [], st => (st, [])
  | c :: cs, st =>
    if c = '_' then readMantissa hex cs { st with underscores := true }
    else if c = '.' then
      if st.sawdot then (st, c :: cs)
      else readMantissa hex cs { st with sawdot := true, dp := st.nd }
    else if isDigit c then
      if c = '0' ∧ st.nd = 0 then
        readMantissa hex cs { st with sawdigits := true, dp := st.dp - 1 }
      else
        readMantissa hex cs
          { st with sawdigits := true, nd := st.nd + 1,
                    mantissa := st.mantissa * (if hex then 16 else 10) + digitVal c }
    else if hex && isHexLetter c then
      readMantissa hex cs
        { st with sawdigits := true, nd := st.nd + 1,
                  mantissa := st.mantissa * 16 + (lower c - 97 + 10) }
    else (st, c :: cs)

/-- The exponent digit loop of `strconv.readFloat`: digits and underscores are
consumed; the exponent stops growing once it has reached `10000`. -/
def readExpDigits : List Char → Nat → Bool → Nat × Bool × List Char
  | [], e, us => (e, us, [])
  | c :: cs, e, us =>
    if c = '_' then readExpDigits cs e true
    else if isDigit c then readExpDigits cs (if e < 10000 then e * 10 + digitVal c else e) us
    else (e, us, c :: cs)

/-- The function `strconv.underscoreOK`: underscores stand only between
digits, or between a base prefix and a digit. -/
def underscoreOK (s : List Char) : Bool :=
  let s := match s with
    | c :: rest => if c = '-' ∨ c = '+' then rest else s
    | [] => s
  let pre : Option (Bool × List Char) := match s with
    | c :: x :: rest =>
      if c = '0' ∧ (lower x = 98 ∨ lower x = 111 ∨ lower x = 120) then
        some (lower x == 120, rest)
      else none
    | _ => none
  let hex : Bool := match pre with
    | some (h, _) => h
    | none => false
  let body : List Char := match pre with
    | some (_, rest) => rest
    | none => s
  let saw0 : Char := match pre with
    | some _ => '0'
    | none => '^'
  let step : Option Char → Char → Option Char := fun saw c =>
    match saw with
    | none => none
    | some w =>
      if isDigit c || (hex && isHexLetter c) then some '0'
      else if c = '_' then (if w ≠ '0' then none else some '_')
      else if w = '_' then none
      else some '!'
  match body.foldl step (some saw0) with
  | none => false
  | some w => w ≠ '_'

/-- Result of `strconv.readFloat` on an input it accepts. -/
structure ReadFloat where
  /-- A minus sign was read. -/
  neg : Bool
  /-- The mantissa is hexadecimal. -/
  hex : Bool
  /-- The digits of the mantissa, as a number. -/
  mantissa : Nat
  /-- The exponent of the base (10, or 2 for a hexadecimal mantissa) applying to `mantissa`. -/
  exp : Int
  /-- The unread rest of the input. -/
  rest : List Char

/-- The function `strconv.readFloat`: sign, optional `0x`, mantissa and
exponent.  `none` stands for `ok = false`.  All the digits of the mantissa are
kept (the library keeps 19 and a truncation flag, and re-reads the text
when the flag matters). -/
def readFloat (s : List Char) : Option ReadFloat :=
  match s with
  | [] => none
  | c0 :: s1 =>
    let neg := c0 == '-'
    let t := if c0 = '+' ∨ c0 = '-' then s1 else s
    let hex : Bool := match t with
      | a :: b :: _ :: _ => a == '0' && lower b == 120
      | _ => false
    let t := if hex then t.drop 2 else t
    let (st, t) := readMantissa hex t ⟨false, false, false, 0, 0, 0⟩
    if ¬ st.sawdigits then none
    else
      let dp : Int := if st.sawdot then st.dp else st.nd
      let dp : Int := if hex then dp * 4 else dp
      let ndMant : Int := if hex then (st.nd : Int) * 4 else st.nd
      let finish : Int → Bool → List Char → Option ReadFloat := fun dp us rest =>
        if us ∧ ¬ underscoreOK (s.take (s.length - rest.length)) then none
        else some ⟨neg, hex, st.mantissa, if st.mantissa ≠ 0 then dp - ndMant else 0, rest⟩
      match t with
      | c :: t1 =>
        if lower c = (if hex then 112 else 101) then
          match t1 with
          | [] => none
          | d :: t2 =>
            let esign : Int := if d = '-' then -1 else 1
            let t3 := if d = '+' ∨ d = '-' then t2 else t1
            match t3 with
            | [] => none
            | f :: _ =>
              if ¬ isDigit f then none
              else
                let (e, us, rest) := readExpDigits t3 0 st.underscores
                finish (dp + (e : Int) * esign) us rest
        else if hex then none
        else finish dp st.underscores t
      | [] => if hex then none else finish dp st.underscores t

/-- The float64 nearest to the number read: `mantissa * 10^exp`, or
`mantissa * 2^exp` for a hexadecimal mantissa. -/
def ReadFloat.value (r : ReadFloat) : F64 :=
  let b : Nat := if r.hex then 2 else 10
  F64.ofRat r.neg (r.mantissa * b ^ r.exp.toNat) (b ^ (-r.exp).toNat)

/-- The function `strconv.ParseFloat(s, 64)`: the value and the error.  A
text that is not entirely a number gives `0` and a syntax error; a number
whose magnitude is too large gives an infinity and a range error. -/
def ParseFloat (s : String) : F64 × Option NumError :=
  match special s.toList with
  | some (v, n) => if n = s.toList.length then (v, none) else (F64.zero, some .syntax_)
  | none =>
    match readFloat s.toList with
    | none => (F64.zero, some .syntax_)
    | some r =>
      if r.rest ≠ [] then (F64.zero, some .syntax_)
      else
        match r.value with
        | .inf neg => (.inf neg, some .range_)
        | v => (v, none)

/-! ## `time.Parse`

A `time.Time` is modelled by its calendar fields in UTC.  `time.Parse`
returns the zero `Time`, January 1 of year 1 at 00:00, together with every
error; the callers discard the error and read `Day()` or `Hour()`. -/

/-- The calendar fields of a `time.Time`. -/
structure Time where
  /-- The year. -/
  year : Nat
  /-- The month, `1` to `12`. -/
  month : Nat
  /-- The day of the month. -/
  day : Nat
  /-- The hour, `0` to `23`. -/
  hour : Nat
  /-- The minute, `0` to `59`. -/
  minute : Nat
deriving DecidableEq

/-- The zero value `time.Time{}`: January 1, year 1, 00:00:00 UTC. -/
def Time.zeroTime : Time := ⟨1, 1, 1, 0, 0⟩

/-- The method `Time.Day`: the day of the month. -/
def Time.Day (t : Time) : Int := t.day

/-- The method `Time.Hour`: the hour within the day. -/
def Time.Hour (t : Time) : Int := t.hour

/-- The function `time.getnum`: one or two leading digits as a number; with
`fixed`, exactly two digits are required. -/
def getnum (s : List Char) (fixed : Bool) : Option (Nat × List Char) :=
  match s with
  | [] => none
  | a :: rest =>
    if ¬ isDigit a then none
    else
      match rest with
      | b :: rest2 =>
        if isDigit b then some (digitVal a * 10 + digitVal b, rest2)
        else if fixed then none else some (digitVal a, rest)
      | [] => if fixed then none else some (digitVal a, rest)

/-- The function `time.skip` for a one-character literal of the layout. -/
def skip (value : List Char) (c : Char) : Option (List Char) :=
  match value with
  | [] => none
  | v :: rest => if v = c then some rest else none

/-- Leap years of the Gregorian calendar: `time.isLeap`. -/
def isLeap (year : Nat) : Bool :=
  year % 4 == 0 && (year % 100 != 0 || year % 400 == 0)

/-- Number of days of a month: `time.daysIn`. -/
def daysIn (month year : Nat) : Nat :=
  if month = 2 then (if isLeap year then 29 else 28)
  else if month = 4 ∨ month = 6 ∨ month = 9 ∨ month = 11 then 30
  else 31

/-- Successful results of `time.Parse("2006-01-02", value)`: a four-digit
year, `-`, a two-digit month in `1..12`, `-`, a two-digit day that exists in
that month, and nothing more. -/
def parseDate (value : List Char) : Option Time :=
  match value with
  | y1 :: y2 :: y3 :: y4 :: value =>
    if ¬ (isDigit y1 ∧ isDigit y2 ∧ isDigit y3 ∧ isDigit y4) then none
    else
      let year := ((digitVal y1 * 10 + digitVal y2) * 10 + digitVal y3) * 10 + digitVal y4
      (skip value '-').bind fun value =>
      (getnum value true).bind fun (month, value) =>
      if month = 0 ∨ 12 < month then none
      else
        (skip value '-').bind fun value =>
        (getnum value true).bind fun (day, value) =>
        if value ≠ [] then none
        else if day < 1 ∨ daysIn month year < day then none
        else some ⟨year, month, day, 0, 0⟩
  | _ => none

/-- Successful results of `time.Parse("15:04", value)`: an hour of one or two
digits below 24, `:`, a two-digit minute below 60, and nothing more.  The date
fields of the result are January 1 of year 0. -/
def parseClock (value : List Char) : Option Time :=
  (getnum value false).bind fun (hour, value) =>
  if 24 ≤ hour then none
  else
    (skip value ':').bind fun value =>
    (getnum value true).bind fun (minute, value) =>
    if 60 ≤ minute then none
    else if value ≠ [] then none
    else some ⟨0, 1, 1, hour, minute⟩

/-- The layouts used by the program. -/
inductive Layout where
  | date : Layout
  | clock : Layout
deriving DecidableEq

/-- The function `time.Parse` for the layouts `"2006-01-02"` and `"15:04"`:
the time and whether an error is returned.  With an error the time is the
zero `Time`. -/
def timeParse (layout : Layout) (value : String) : Time × Bool :=
  let r := match layout with
    | .date => parseDate value.toList
    | .clock => parseClock value.toList
  match r with
  | some t => (t, false)
  | none => (Time.zeroTime, true)

/-! ## The program -/

/-- The Go type `Item`. -/
structure Item where
  /-- Field `Description` (JSON `shortDescription`). -/
  Description : String
  /-- Field `Price` (JSON `price`). -/
  Price : String
deriving DecidableEq

/-- The Go type `Receipt`. -/
structure Receipt where
  /-- Field `ID` (JSON `id`). -/
  ID : String
  /-- Field `Retailer` (JSON `retailer`). -/
  Retailer : String
  /-- Field `Date` (JSON `purchaseDate`). -/
  Date : String
  /-- Field `Time` (JSON `purchaseTime`). -/
  Time : String
  /-- Field `Items` (JSON `items`). -/
  Items : List Item
  /-- Field `TotalAmount` (JSON `total`). -/
  TotalAmount : String
deriving DecidableEq

/-- The function `isAlphaNumeric`:
`('A' <= ch && ch <= 'Z') || ('a' <= ch && ch <= 'z') || ('0' <= ch && ch <= '9')`. -/
def isAlphaNumeric (ch : Char) : Bool :=
  ('A' ≤ ch && ch ≤ 'Z') || ('a' ≤ ch && ch ≤ 'z') || ('0' ≤ ch && ch ≤ '9')

/-- The function `countAlphanumeric`: the loop over the characters of `s`,
adding one for each that `isAlphaNumeric` accepts.  The count is at most
`len(s)`, which fits an `int`, so `count++` never wraps. -/
def countAlphanumeric (s : String) : Int :=
  s.toList.foldl (fun count ch => if isAlphaNumeric ch then count + 1 else count) 0

/-- The function `parsePrice`: `strconv.ParseFloat(s, 64)`. -/
def parsePrice (s : String) : F64 × Option NumError :=
  ParseFloat s

/-- The body of the loop of `computePoints` over the items: one item's
effect on `points`. -/
def itemStep (arch : Arch) (points : Int) (item : Item) : Int :=
  if goLen (TrimSpace item.Description.toList) % 3 = 0 then
    let price := (parsePrice item.Price).1
    wrapInt (points + toInt arch (F64.ceil (F64.mul price F64.fifth)))
  else points

/-- The function `computePoints`, statement by statement.  `len(r.Items)` is
bounded by the address space, so `5 * (len(r.Items) / 2)` is exact. -/
def computePoints (arch : Arch) (r : Receipt) : Int :=
  let points : Int := 0
  let points := wrapInt (points + countAlphanumeric r.Retailer)
  let total := (parsePrice r.TotalAmount).1
  let points := if F64.eq total (F64.floor total) then wrapInt (points + 50) else points
  let total := (parsePrice r.TotalAmount).1
  let points := if F64.eq (F64.mod total F64.quarter) F64.zero then wrapInt (points + 25) else points
  let points := wrapInt (points + 5 * ((r.Items.length : Int) / 2))
  let points := r.Items.foldl (itemStep arch) points
  let date := (timeParse .date r.Date).1
  let points := if date.Day % 2 ≠ 0 then wrapInt (points + 6) else points
  let t := (timeParse .clock r.Time).1
  let points := if t.Hour ≥ 14 ∧ t.Hour < 16 then wrapInt (points + 10) else points
  points

/-! ## The seven rules

Each definition is the addend of one `points +=` statement of `computePoints`
(or the sum of the addends of the loop), as a function of the field it reads. -/

/-- Rule 1, the retailer name: `countAlphanumeric(r.Retailer)`. -/
def retailerPoints (retailer : String) : Int :=
  countAlphanumeric retailer

/-- Rule 2, round dollar: `50` when `total == math.Floor(total)`. -/
def roundDollarPoints (total : String) : Int :=
  if F64.eq (parsePrice total).1 (F64.floor (parsePrice total).1) then 50 else 0

/-- Rule 3, quarter multiple: `25` when `math.Mod(total, 0.25) == 0`. -/
def quarterPoints (total : String) : Int :=
  if F64.eq (F64.mod (parsePrice total).1 F64.quarter) F64.zero then 25 else 0

/-- Rule 4, item pairs: `5 * (len(r.Items) / 2)`. -/
def itemPairPoints (items : List Item) : Int :=
  5 * ((items.length : Int) / 2)

/-- The test of the loop: `len(strings.TrimSpace(item.Description))%3 == 0`. -/
def qualifies (item : Item) : Bool :=
  goLen (TrimSpace item.Description.toList) % 3 == 0

/-- The float64 `math.Ceil(price * 0.2)` of an item. -/
def priceCeil (item : Item) : F64 :=
  F64.ceil (F64.mul (parsePrice item.Price).1 F64.fifth)

/-- Rule 5 for one item: `int(math.Ceil(price * 0.2))` when the item qualifies. -/
def itemPoints (arch : Arch) (item : Item) : Int :=
  if qualifies item then toInt arch (priceCeil item) else 0

/-- Rule 5, description length: the exact sum of the items' addends. -/
def descriptionPoints (arch : Arch) (items : List Item) : Int :=
  (items.map (itemPoints arch)).sum

/-- Rule 6, odd day: `6` when `date.Day()%2 != 0`. -/
def oddDayPoints (date : String) : Int :=
  if (timeParse .date date).1.Day % 2 ≠ 0 then 6 else 0

/-- Rule 7, afternoon: `10` when `t.Hour() >= 14 && t.Hour() < 16`. -/
def afternoonPoints (time : String) : Int :=
  if (timeParse .clock time).1.Hour ≥ 14 ∧ (timeParse .clock time).1.Hour < 16 then 10 else 0

/-- The exact sum of the seven rules for a receipt, before any reduction
to the `int` range. -/
def rulesSum (arch : Arch) (r : Receipt) : Int :=
  retailerPoints r.Retailer + roundDollarPoints r.TotalAmount + quarterPoints r.TotalAmount +
    itemPairPoints r.Items + descriptionPoints arch r.Items + oddDayPoints r.Date +
    afternoonPoints r.Time

/-! ## The rules on float64 values, without the limits of `int` -/

/-- The integer value of a float64 with an integral value (`0` for NaN and the
infinities): for `math.Ceil(price * 0.2)`, the ceiling of the float64 product
as an integer, whatever its size. -/
def integerValue : F64 → Int
  | .fin neg m e => F64.trunc neg m e
  | _ => 0

/-- Rule 5 without the conversion to `int`: the sum, over the items whose
trimmed description has a byte length divisible by 3, of the integer value of
the float64 `math.Ceil(price * 0.2)`. -/
def specDescriptionPoints (items : List Item) : Int :=
  ((items.filter qualifies).map fun item => integerValue (priceCeil item)).sum

/-- The sum of the seven contributions as integers, rule 5 being taken
without the conversion to `int`. -/
def specPoints (r : Receipt) : Int :=
  retailerPoints r.Retailer + roundDollarPoints r.TotalAmount + quarterPoints r.TotalAmount +
    itemPairPoints r.Items + specDescriptionPoints r.Items + oddDayPoints r.Date +
    afternoonPoints r.Time

/-- A finite float64 whose integer part lies in the `int` range: the values
that `int(x)` converts exactly on every platform. -/
def fitsInt : F64 → Bool
  | .fin neg m e => decide (minInt ≤ F64.trunc neg m e ∧ F64.trunc neg m e ≤ maxInt)
  | _ => false

/-! ## Receipts used as examples -/

/-- A receipt with five items, two of which qualify for rule 5. -/
def fiveItemReceipt : Receipt :=
  { ID := "", Retailer := "Target", Date := "2022-01-01", Time := "13:01",
    Items := [⟨"Mountain Dew 12PK", "6.49"⟩, ⟨"Emils Cheese Pizza", "12.25"⟩,
      ⟨"Knorr Creamy Chicken", "1.26"⟩, ⟨"Doritos Nacho Cheese", "3.35"⟩,
      ⟨"   Klarbrunn 12-PK 12 FL OZ  ", "12.00"⟩],
    TotalAmount := "35.35" }

/-- The receipt of the end-to-end scenario. -/
def targetReceipt : Receipt :=
  { ID := "", Retailer := "Target", Date := "2022-01-01", Time := "13:01",
    Items := [⟨"Mountain Dew 12PK", "6.49"⟩], TotalAmount := "35.35" }

/-- Two qualifying items whose addends, `8 * 10^18` each, together exceed the
greatest `int`. -/
def overflowReceipt : Receipt :=
  { ID := "", Retailer := "", Date := "2022-01-02", Time := "13:01",
    Items := [⟨"", "4e19"⟩, ⟨"", "4e19"⟩], TotalAmount := "0.1" }

/-- A receipt whose date does not parse and to which no other rule applies. -/
def badDateReceipt : Receipt :=
  { ID := "", Retailer := "", Date := "not-a-date", Time := "13:01", Items := [],
    TotalAmount := "0.1" }

/-- A receipt whose only contribution comes from an item with a negative price. -/
def negativePriceReceipt : Receipt :=
  { ID := "", Retailer := "", Date := "2022-01-02", Time := "13:01", Items := [⟨"", "-5"⟩],
    TotalAmount := "0.1" }

/-- A qualifying item whose `math.Ceil(price * 0.2)`, about `2 * 10^29`, is
outside the `int` range. -/
def hugePriceItem : Item := ⟨"", "1e30"⟩

/-- The characters `A-Z`, `a-z` and `0-9`, written out. -/
def asciiAlphanumerics : List Char :=
  "ABCDEFGHIJKLMNOPQRSTUVWXYZabcdefghijklmnopqrstuvwxyz0123456789".toList

/-! ## The receipt store and the two handlers

The package variable `store`, a Go map, is modelled by a partial function from
identifiers to receipts, passed in and out of the handlers.  The handlers
are run one at a time.  The identifier `uuid.New().String()` and the JSON
decoder of `encoding/json` belong to libraries: the identifier a submission
is given and the decoder are parameters. -/

/-- The Go type `Points`. -/
structure Points where
  /-- Field `Points` (JSON `points`). -/
  Points : Int
deriving DecidableEq

/-- The package variable `store`, of type `map[string]Receipt`. -/
def Store : Type := String → Option Receipt

/-- The initial value of `store`: `make(map[string]Receipt)`. -/
def emptyStore : Store := fun _ => none

/-- The assignment `store[id] = rcp`. -/
def Store.set (store : Store) (id : String) (rcp : Receipt) : Store :=
  fun k => if k = id then some rcp else store k

/-- What the handlers read of an `http.Request`. -/
structure Request where
  /-- Field `Method`. -/
  Method : String
  /-- Field `URL.Path`. -/
  Path : String
  /-- The bytes of `Body`. -/
  Body : String
deriving DecidableEq

/-- What a handler writes: the text of `http.Error`, or the value given to
the JSON encoder. -/
inductive Payload where
  | text (msg : String) : Payload
  | id (id : String) : Payload
  | points (p : Points) : Payload
deriving DecidableEq

/-- The answer of a handler: the status code and what is written. -/
structure Response where
  /-- The HTTP status code (`200` when the handler sets none). -/
  status : Nat
  /-- What is written to the body. -/
  payload : Payload
deriving DecidableEq

/-- Go `strings.TrimPrefix`: `s` without the leading `pre`, when it starts with it. -/
def TrimPrefix (s pre : List Char) : List Char :=
  if pre.isPrefixOf s then s.drop pre.length else s

/-- Go `strings.TrimSuffix`: `s` without the trailing `suf`, when it ends with it. -/
def TrimSuffix (s suf : List Char) : List Char :=
  if suf.isSuffixOf s then s.take (s.length - suf.length) else s

/-- The function `handleReceipt`.  `decode` stands for
`json.NewDecoder(r.Body).Decode(&rcp)` (`none` for an error) and `newID` for
the value of `uuid.New().String()`, which is only used on the last path. -/
def handleReceipt (decode : String → Option Receipt) (newID : String) (store : Store)
    (r : Request) : Store × Response :=
  if r.Method ≠ "POST" then (store, ⟨405, .text "Invalid request method"⟩)
  else
    match decode r.Body with
    | none => (store, ⟨400, .text "Invalid JSON"⟩)
    | some rcp =>
      let rcp := { rcp with ID := newID }
      (store.set rcp.ID rcp, ⟨200, .id rcp.ID⟩)

/-- The identifier that `calculatePointsWithPoints` takes from the path:
`strings.TrimSuffix(strings.TrimPrefix(path, "/receipts/"), "/points")`. -/
def pathID (path : String) : String :=
  String.mk (TrimSuffix (TrimPrefix path.toList "/receipts/".toList) "/points".toList)

/-- The function `calculatePointsWithPoints`.  The store is returned as it was
received: the handler has no assignment to it. -/
def calculatePointsWithPoints (arch : Arch) (store : Store) (r : Request) : Store × Response :=
  let id := pathID r.Path
  match store id with
  | none => (store, ⟨404, .text "Receipt not found"⟩)
  | some rcp =>
    let points := computePoints arch rcp
    (store, ⟨200, .points ⟨points⟩⟩)

/-- One request to the service: a submission, with the identifier it would
be given, or a points request. -/
inductive Op where
  | submit (r : Request) (newID : String) : Op
  | points (r : Request) : Op

/-- The effect of one request on the store, and its answer. -/
def step (arch : Arch) (decode : String → Option Receipt) (store : Store) :
    Op → Store × Response
  | .submit r newID => handleReceipt decode newID store r
  | .points r => calculatePointsWithPoints arch store r

/-- The store after a sequence of requests. -/
def run (arch : Arch) (decode : String → Option Receipt) (store : Store) : List Op → Store
  | [] => store
  | op :: ops => run arch decode (step arch decode store op).1 ops

/-- Every submission of the sequence is given an identifier that is not a key
of the store at that moment. -/
def freshIDs (arch : Arch) (decode : String → Option Receipt) (store : Store) : List Op → Prop
  | [] => True
  | op :: ops =>
    (match op with
      | .submit _ newID => store newID = none
      | .points _ => True) ∧
    freshIDs arch decode (step arch decode store op).1 ops

/-! ## Dates and times as the specification writes them -/

/-- The decimal digit of the units of `n`, as a character. -/
def digitChar (n : Nat) : Char := Char.ofNat (48 + n % 10)

/-- The two-digit form of a number below 100. -/
def twoDigits (n : Nat) : List Char := [digitChar (n / 10), digitChar n]

/-- The four-digit form of a number below 10000. -/
def fourDigits (n : Nat) : List Char :=
  [digitChar (n / 1000), digitChar (n / 100), digitChar (n / 10), digitChar n]

/-- The text `YYYY-MM-DD` of a date. -/
def formatDate (year month day : Nat) : String :=
  String.mk (fourDigits year ++ '-' :: twoDigits month ++ '-' :: twoDigits day)

/-- The text `HH:MM` of a time of day. -/
def formatClock (hour minute : Nat) : String :=
  String.mk (twoDigits hour ++ ':' :: twoDigits minute)

/-- Number of days of a month of the Gregorian calendar (`0` for a month
outside `1..12`). -/
def calendarDays (year : Nat) : Nat → Nat
  | 1 => 31
  | 2 => if (year % 4 = 0 ∧ year % 100 ≠ 0) ∨ year % 400 = 0 then 29 else 28
  | 3 => 31
  | 4 => 30
  | 5 => 31
  | 6 => 30
  | 7 => 31
  | 8 => 31
  | 9 => 30
  | 10 => 31
  | 11 => 30
  | 12 => 31
  | _ => 0

/-- A calendar date that `YYYY-MM-DD` can write: a year of four digits, a
month and a day of that month. -/
def validDate (year month day : Nat) : Prop :=
  year ≤ 9999 ∧ 1 ≤ day ∧ day ≤ calendarDays year month

/-! ## The upper bound of the score, on float64 values -/

/-- Go `x < 0` on float64. -/
def F64.isNegative : F64 → Bool
  | .inf neg => neg
  | .fin neg m _ => neg && m != 0
  | .nan => false

/-- The float64 `max(p, 0)`. -/
def maxZero (x : F64) : F64 :=
  if x.isNegative then F64.zero else x

/-- The integer value of the float64 `math.Ceil(max(p, 0) * 0.2)` of an item,
`p` being the float64 that `parsePrice` returns for its price and the product
a float64 product (`0` when the result is not finite). -/
def cappedCeil (item : Item) : Int :=
  integerValue (F64.ceil (F64.mul (maxZero (parsePrice item.Price).1) F64.fifth))

/-- An upper bound of the score: the greatest contribution of each of the
rules 1 to 4, 6 and 7, and the float64 `math.Ceil(max(p, 0) * 0.2)` for
every item. -/
def specUpperBound (r : Receipt) : Int :=
  countAlphanumeric r.Retailer + 75 + 5 * ⌊(r.Items.length : ℚ) / 2⌋ + 6 + 10 +
    (r.Items.map cappedCeil).sum

/-- The price of an item fails to parse, or parses to a float64 that is not
negative (Go `price >= 0`). -/
def priceNonneg (item : Item) : Bool :=
  match parsePrice item.Price with
  | (_, some _) => true
  | (.nan, none) => false
  | (x, none) => !x.isNegative

/-! ## The rules on the numbers as the texts write them

These definitions read a price or a total as the decimal number its text
writes, without any rounding: they state what the rules give in exact
arithmetic, for comparison with the float64 arithmetic of the program. -/

/-- The decimal number a text writes, for a text that `strconv` reads
entirely as a decimal number: the sign, the digits `m` and the exponent `e`
of `(-1)^neg * m * 10^e`. -/
def writtenDecimal (s : String) : Option (Bool × Nat × Int) :=
  match readFloat s.toList with
  | some r => if r.rest = [] ∧ r.hex = false then some (r.neg, r.mantissa, r.exp) else none
  | none => none

/-- The number a text writes as a fraction: the sign, `n` and `d` of
`(-1)^neg * n / d`, with `d` a power of ten. -/
def writtenFraction (s : String) : Option (Bool × Nat × Nat) :=
  (writtenDecimal s).map fun (neg, m, e) => (neg, m * 10 ^ e.toNat, 10 ^ (-e).toNat)

/-- The number written is a whole number. -/
def writtenWhole (s : String) : Bool :=
  match writtenFraction s with
  | some (_, n, d) => n % d == 0
  | none => false

/-- The number written is an integer multiple of `0.25`. -/
def writtenQuarterMultiple (s : String) : Bool :=
  match writtenFraction s with
  | some (_, n, d) => 4 * n % d == 0
  | none => false

/-- The integer `ceiling(price * 0.2)` for the number the text writes, in
exact arithmetic: the ceiling of `(-1)^neg * n / (5 * d)`; `0` for a text
that writes no decimal number. -/
def exactCeilFifth (s : String) : Int :=
  match writtenFraction s with
  | some (neg, n, d) =>
    if neg then -((n / (5 * d) : Nat) : Int) else ((n + 5 * d - 1) / (5 * d) : Nat)
  | none => 0

/-- The integer `ceiling(max(price, 0) * 0.2)` for the number the text
writes, in exact arithmetic. -/
def exactCappedCeilFifth (s : String) : Int :=
  match writtenFraction s with
  | some (false, n, d) => ((n + 5 * d - 1) / (5 * d) : Nat)
  | _ => 0

/-- The sum of the seven contributions in exact arithmetic on the numbers
written: the count of rule 1, 50 for a whole total, 25 for a total that is a
multiple of 0.25, 5 for every two items, `ceiling(price * 0.2)` for every
qualifying item, 6 for a date with an odd day, 10 for a time with hour 14
or 15. -/
def claimedPoints (r : Receipt) : Int :=
  countAlphanumeric r.Retailer +
    (if writtenWhole r.TotalAmount then 50 else 0) +
    (if writtenQuarterMultiple r.TotalAmount then 25 else 0) +
    5 * ((r.Items.length : Int) / 2) +
    ((r.Items.filter qualifies).map fun item => exactCeilFifth item.Price).sum +
    (match parseDate r.Date.toList with
      | some t => if t.day % 2 = 1 then 6 else 0
      | none => 0) +
    (match parseClock r.Time.toList with
      | some t => if 14 ≤ t.hour ∧ t.hour < 16 then 10 else 0
      | none => 0)

/-- The upper bound of the score in exact arithmetic on the numbers written:
`ceiling(max(price, 0) * 0.2)` is taken for every item. -/
def claimedUpperBound (r : Receipt) : Int :=
  countAlphanumeric r.Retailer + 75 + 5 * ((r.Items.length : Int) / 2) + 6 + 10 +
    (r.Items.map fun item => exactCappedCeilFifth item.Price).sum

/-- A receipt with a whole total, an odd day, an afternoon time and one
qualifying item priced `2^60`. -/
def roundedPriceReceipt : Receipt :=
  { ID := "", Retailer := "", Date := "2022-01-01", Time := "14:00",
    Items := [⟨"", "1152921504606846976"⟩], TotalAmount := "100" }

/-- A receipt whose total and whose only price are not float64 values: the
total `100.00000000000000001` is read as `100` and the price
`5.0000000000000001` as `5`; the date has an even day and the time is before
14:00. -/
def roundedReceipt : Receipt :=
  { ID := "", Retailer := "", Date := "2022-01-02", Time := "13:01",
    Items := [⟨"", "5.0000000000000001"⟩], TotalAmount := "100.00000000000000001" }

/-! ## Checks of the model of the library -/

/-- The byte length of a character agrees with the one of Lean strings. -/
theorem utf8Len_eq_utf8Size (c : Char) : utf8Len c = c.utf8Size := by
  unfold utf8Len Char.utf8Size
  have h1 : (c.val ≤ UInt32.ofNatCore 127 (by decide)) ↔ c.toNat < 0x80 := by
    rw [UInt32.le_def]
    show c.val.toNat ≤ 127 ↔ _
    exact Nat.lt_succ_iff.symm
  have h2 : (c.val ≤ UInt32.ofNatCore 2047 (by decide)) ↔ c.toNat < 0x800 := by
    rw [UInt32.le_def]
    show c.val.toNat ≤ 2047 ↔ _
    exact Nat.lt_succ_iff.symm
  have h3 : (c.val ≤ UInt32.ofNatCore 65535 (by decide)) ↔ c.toNat < 0x10000 := by
    rw [UInt32.le_def]
    show c.val.toNat ≤ 65535 ↔ _
    exact Nat.lt_succ_iff.symm
  simp only [h1, h2, h3]

/-- Go `len(s)` is the UTF-8 size of the string. -/
theorem goLen_eq_utf8ByteSize (s : String) : goLen s.toList = s.utf8ByteSize := by
  cases s with
  | mk l =>
    show goLen l = String.utf8ByteSize.go l
    induction l with
    | nil => rfl
    | cons c cs ih =>
      simp only [goLen, List.map_cons, List.sum_cons, String.utf8ByteSize.go] at ih ⊢
      rw [← ih, utf8Len_eq_utf8Size, add_comm]

set_option maxRecDepth 100000 in
/-- Known values of the library functions, as checks of the model. -/
theorem model_examples :
    (ParseFloat "0.2").1 = F64.fifth ∧ 0x1999999999999A = 7205759403792794 ∧
    F64.eq (ParseFloat "0.25").1 F64.quarter = true ∧
    (ParseFloat "6.49").1 = .fin false 7307090395408630 (-50) ∧
    (ParseFloat "1_000.5e-1").1 = (ParseFloat "100.05").1 ∧
    (ParseFloat "0x1p-2").1 = (ParseFloat "0.25").1 ∧
    ParseFloat "+nan" = (F64.zero, some .syntax_) ∧
    ParseFloat "NaN" = (F64.nan, none) ∧
    ParseFloat "-Infinity" = (F64.inf true, none) ∧
    ParseFloat "1 " = (F64.zero, some .syntax_) ∧
    (timeParse .date "2024-02-29").1.Day = 29 ∧
    (timeParse .date "2023-02-29").2 = true ∧
    (timeParse .clock "9:05").1.Hour = 9 ∧
    (timeParse .clock "24:00").2 = true ∧
    TrimSpace "  a b \t\n".toList = "a b".toList := by
  decide
/-! ## Lemmas on `int` arithmetic -/

theorem wrapInt_of_range {x : Int} (h₁ : minInt ≤ x) (h₂ : x ≤ maxInt) : wrapInt x = x := by
  unfold wrapInt
  unfold minInt at h₁
  unfold maxInt at h₂
  rw [Int.emod_eq_of_lt (by omega) (by omega)]
  omega

theorem wrapInt_range (x : Int) : minInt ≤ wrapInt x ∧ wrapInt x ≤ maxInt := by
  unfold wrapInt minInt maxInt
  have h₁ := Int.emod_nonneg (x + 9223372036854775808)
    (show (18446744073709551616 : Int) ≠ 0 by decide)
  have h₂ := Int.emod_lt_of_pos (x + 9223372036854775808)
    (show (0 : Int) < 18446744073709551616 by decide)
  omega

theorem wrapInt_wrapInt_add (a b : Int) : wrapInt (wrapInt a + b) = wrapInt (a + b) := by
  unfold wrapInt
  have h : (a + 9223372036854775808) % 18446744073709551616 - 9223372036854775808 + b +
      9223372036854775808 = (a + 9223372036854775808) % 18446744073709551616 + b := by ring
  rw [h, Int.emod_add_emod]
  have h₂ : a + 9223372036854775808 + b = a + b + 9223372036854775808 := by ring
  rw [h₂]

theorem wrapInt_add_wrapInt (a b : Int) : wrapInt (a + wrapInt b) = wrapInt (a + b) := by
  rw [add_comm, wrapInt_wrapInt_add, add_comm]

theorem wrapInt_idem (a : Int) : wrapInt (wrapInt a) = wrapInt a := by
  have h := wrapInt_wrapInt_add a 0
  simpa using h

/-! ## The loop and the decomposition of `computePoints` -/

theorem itemStep_eq (arch : Arch) (points : Int) (item : Item) :
    itemStep arch points item =
      if qualifies item then wrapInt (points + itemPoints arch item) else points := by
  unfold itemStep itemPoints qualifies priceCeil
  by_cases h : goLen (TrimSpace item.Description.toList) % 3 = 0
  · simp only [h, if_true, beq_self_eq_true]
  · simp only [h, if_false, beq_iff_eq]

theorem foldl_itemStep (arch : Arch) (items : List Item) (p : Int) :
    items.foldl (itemStep arch) (wrapInt p) = wrapInt (p + descriptionPoints arch items) := by
  induction items generalizing p with
  | nil => simp [descriptionPoints]
  | cons item rest ih =>
    rw [List.foldl_cons, itemStep_eq]
    by_cases h : qualifies item = true
    · rw [if_pos h, wrapInt_wrapInt_add, ih]
      simp [descriptionPoints, add_assoc]
    · rw [if_neg h, ih]
      have h0 : itemPoints arch item = 0 := by simp [itemPoints, h]
      simp [descriptionPoints, h0]

theorem computePoints_eq_wrapInt (arch : Arch) (r : Receipt) :
    computePoints arch r = wrapInt (rulesSum arch r) := by
  unfold computePoints rulesSum retailerPoints roundDollarPoints quarterPoints itemPairPoints
    oddDayPoints afternoonPoints
  simp only [zero_add]
  split_ifs <;>
    simp only [foldl_itemStep, wrapInt_wrapInt_add, wrapInt_idem, add_zero]

theorem toInt_of_fitsInt (arch : Arch) {x : F64} (h : fitsInt x = true) :
    toInt arch x = integerValue x := by
  cases x with
  | nan => simp [fitsInt] at h
  | inf neg => simp [fitsInt] at h
  | fin neg m e =>
    simp only [fitsInt, decide_eq_true_eq] at h
    simp only [toInt, integerValue, h, and_self, if_true]

theorem descriptionPoints_eq_spec (arch : Arch) (items : List Item)
    (h : ∀ item ∈ items, qualifies item = true → fitsInt (priceCeil item) = true) :
    descriptionPoints arch items = specDescriptionPoints items := by
  induction items with
  | nil => rfl
  | cons item rest ih =>
    have ih := ih fun it hit => h it (List.mem_cons_of_mem _ hit)
    unfold descriptionPoints specDescriptionPoints at *
    by_cases hq : qualifies item = true
    · have hf := h item (List.mem_cons_self _ _) hq
      simp only [List.map_cons, List.sum_cons, List.filter_cons, hq, if_true, itemPoints,
        toInt_of_fitsInt arch hf, ih]
    · simp only [List.map_cons, List.sum_cons, List.filter_cons, hq, itemPoints, ih]
      simp

/-! ## Claim C2 -/

set_option maxRecDepth 100000 in
/-- Claim C2, refuted as stated: for the receipt of the scenario
`computePoints` does not return `14`; the description `Mountain Dew 12PK` has
17 bytes, which is not divisible by 3, so the item adds nothing. -/
theorem C2_counterexample_target :
    computePoints amd64 targetReceipt ≠ 14 ∧
    goLen (TrimSpace "Mountain Dew 12PK".toList) = 17 ∧
    itemPoints amd64 ⟨"Mountain Dew 12PK", "6.49"⟩ ≠ 2 := by
  decide

set_option maxRecDepth 100000 in
/-- Claim C2, amended: for the receipt of the scenario `computePoints` returns
`12` on every platform: 6 from the retailer name, 6 from the odd day, 0 from
the time, 0 from both total rules, 0 from the item-pair rule and 0 from the
description-length rule. -/
theorem C2_target_scores_twelve (arch : Arch) :
    computePoints arch targetReceipt = 12 ∧
    retailerPoints targetReceipt.Retailer = 6 ∧
    oddDayPoints targetReceipt.Date = 6 ∧
    afternoonPoints targetReceipt.Time = 0 ∧
    roundDollarPoints targetReceipt.TotalAmount = 0 ∧
    quarterPoints targetReceipt.TotalAmount = 0 ∧
    itemPairPoints targetReceipt.Items = 0 ∧
    descriptionPoints arch targetReceipt.Items = 0 := by
  have hq : qualifies ⟨"Mountain Dew 12PK", "6.49"⟩ = false := by decide
  have hd : descriptionPoints arch targetReceipt.Items = 0 := by
    simp only [targetReceipt, descriptionPoints, itemPoints, hq, List.map, List.sum_cons,
      List.sum_nil]
    simp
  have h1 : retailerPoints targetReceipt.Retailer = 6 := by decide
  have h2 : oddDayPoints targetReceipt.Date = 6 := by decide
  have h3 : afternoonPoints targetReceipt.Time = 0 := by decide
  have h4 : roundDollarPoints targetReceipt.TotalAmount = 0 := by decide
  have h5 : quarterPoints targetReceipt.TotalAmount = 0 := by decide
  have h6 : itemPairPoints targetReceipt.Items = 0 := by decide
  refine ⟨?_, h1, h2, h3, h4, h5, h6, hd⟩
  rw [computePoints_eq_wrapInt, rulesSum, h1, h2, h3, h4, h5, h6, hd]
  decide

/-! ## Claim C3 -/

theorem timeParse_error (layout : Layout) (value : String)
    (h : (timeParse layout value).2 = true) : (timeParse layout value).1 = Time.zeroTime := by
  unfold timeParse at h ⊢
  cases layout <;> dsimp only at h ⊢ <;> split at h <;> simp_all

set_option maxRecDepth 100000 in
/-- Claim C3, refuted as stated: the dates `""`, `"not-a-date"` and
`"2022-02-30"` fail to parse, yet the odd-day rule contributes `6` for each;
`badDateReceipt` scores `6` although its other rules contribute `0`. -/
theorem C3_counterexample_bad_date :
    (timeParse .date "").2 = true ∧ oddDayPoints "" = 6 ∧
    (timeParse .date "not-a-date").2 = true ∧ oddDayPoints "not-a-date" = 6 ∧
    (timeParse .date "2022-02-30").2 = true ∧ oddDayPoints "2022-02-30" = 6 ∧
    computePoints amd64 badDateReceipt = 6 ∧
    retailerPoints badDateReceipt.Retailer + roundDollarPoints badDateReceipt.TotalAmount +
      quarterPoints badDateReceipt.TotalAmount + itemPairPoints badDateReceipt.Items +
      descriptionPoints amd64 badDateReceipt.Items + afternoonPoints badDateReceipt.Time = 0 := by
  decide

/-- Claim C3, amended: for every receipt whose purchaseDate fails to parse,
`time.Parse` yields the zero time, whose day of the month is 1, so the
odd-day rule contributes `6`: the result is that of the other rules plus 6. -/
theorem C3_unparsable_date_scores_six (arch : Arch) (r : Receipt)
    (h : (timeParse .date r.Date).2 = true) :
    (timeParse .date r.Date).1.Day = 1 ∧ oddDayPoints r.Date = 6 ∧
    computePoints arch r =
      wrapInt (retailerPoints r.Retailer + roundDollarPoints r.TotalAmount +
        quarterPoints r.TotalAmount + itemPairPoints r.Items + descriptionPoints arch r.Items +
        6 + afternoonPoints r.Time) := by
  have hz := timeParse_error .date r.Date h
  have hd : (timeParse .date r.Date).1.Day = 1 := by rw [hz]; rfl
  have h6 : oddDayPoints r.Date = 6 := by
    unfold oddDayPoints
    rw [hd]
    decide
  refine ⟨hd, h6, ?_⟩
  rw [computePoints_eq_wrapInt, rulesSum, h6]

set_option maxRecDepth 100000 in
/-- Claim C3, an instance: the date `not-a-date` of `badDateReceipt`. -/
theorem C3_witness_bad_date :
    (timeParse .date badDateReceipt.Date).2 = true ∧ oddDayPoints badDateReceipt.Date = 6 :=
  ⟨by decide, (C3_unparsable_date_scores_six amd64 badDateReceipt (by decide)).2.1⟩

/-! ## Claim C4 -/

theorem ParseFloat_syntax_value (s : String) (h : (ParseFloat s).2 = some .syntax_) :
    (ParseFloat s).1 = F64.zero := by
  unfold ParseFloat at h ⊢
  split
  · split
    · simp_all
    · rfl
  · split
    · rfl
    · split
      · rfl
      · split <;> simp_all

theorem ParseFloat_range_value (s : String) (h : (ParseFloat s).2 = some .range_) :
    ∃ neg, (ParseFloat s).1 = F64.inf neg := by
  unfold ParseFloat at h ⊢
  split
  · split <;> simp_all
  · split
    · simp_all
    · split
      · simp_all
      · split
        · exact ⟨_, rfl⟩
        · simp_all

set_option maxRecDepth 100000 in
/-- Claim C4, refuted as stated: the totals `""` and `"abc"` fail to parse,
`parsePrice` returns `0` with the error, and both rules apply: `+50` and `+25`. -/
theorem C4_counterexample_unparsable_total :
    (parsePrice "").2 = some .syntax_ ∧ roundDollarPoints "" = 50 ∧ quarterPoints "" = 25 ∧
    (parsePrice "abc").2 = some .syntax_ ∧ roundDollarPoints "abc" = 50 ∧
    quarterPoints "abc" = 25 := by
  decide

/-- Claim C4, amended: for every total that fails to parse, the rules are
evaluated on the value returned with the error.  The round-dollar rule
always applies (`+50`); the quarter-multiple rule applies (`+25`) exactly
when the error is a syntax error, where the value is `0`, and does not for
a range error, where the value is an infinity. -/
theorem C4_unparsable_total_rules (total : String) (h : (parsePrice total).2 ≠ none) :
    roundDollarPoints total = 50 ∧
    quarterPoints total = if (parsePrice total).2 = some .syntax_ then 25 else 0 := by
  unfold roundDollarPoints quarterPoints
  unfold parsePrice at h ⊢
  cases herr : (ParseFloat total).2 with
  | none => exact absurd herr h
  | some err =>
    cases err with
    | syntax_ =>
      rw [ParseFloat_syntax_value total herr]
      decide
    | range_ =>
      obtain ⟨neg, hv⟩ := ParseFloat_range_value total herr
      rw [hv]
      cases neg <;> decide

set_option maxRecDepth 100000 in
/-- Claim C4, an instance: the total `abc`. -/
theorem C4_witness_abc : roundDollarPoints "abc" = 50 ∧ quarterPoints "abc" = 25 := by
  have h := C4_unparsable_total_rules "abc" (by decide)
  exact ⟨h.1, by rw [h.2]; decide⟩

/-! ## Claim C5 -/

theorem countAlphanumeric_foldl (l : List Char) (a : Int) :
    l.foldl (fun count ch => if isAlphaNumeric ch then count + 1 else count) a =
      a + (l.countP isAlphaNumeric : Int) := by
  induction l generalizing a with
  | nil => simp
  | cons ch rest ih =>
    rw [List.foldl_cons, ih]
    by_cases h : isAlphaNumeric ch = true
    · rw [if_pos h, List.countP_cons_of_pos _ _ h]
      push_cast
      ring
    · rw [if_neg h, List.countP_cons_of_neg _ _ h]

theorem countAlphanumeric_eq_countP (s : String) :
    countAlphanumeric s = (s.toList.countP isAlphaNumeric : Int) := by
  unfold countAlphanumeric
  rw [countAlphanumeric_foldl, zero_add]

theorem retailerPoints_nonneg (s : String) : 0 ≤ retailerPoints s := by
  unfold retailerPoints
  rw [countAlphanumeric_eq_countP]
  exact Int.natCast_nonneg _

theorem roundDollarPoints_nonneg (s : String) : 0 ≤ roundDollarPoints s := by
  unfold roundDollarPoints
  split <;> decide

theorem quarterPoints_nonneg (s : String) : 0 ≤ quarterPoints s := by
  unfold quarterPoints
  split <;> decide

theorem itemPairPoints_nonneg (items : List Item) : 0 ≤ itemPairPoints items := by
  unfold itemPairPoints
  omega

theorem oddDayPoints_nonneg (s : String) : 0 ≤ oddDayPoints s := by
  unfold oddDayPoints
  split <;> decide

theorem afternoonPoints_nonneg (s : String) : 0 ≤ afternoonPoints s := by
  unfold afternoonPoints
  split <;> decide

theorem specDescriptionPoints_nonneg (items : List Item)
    (h : ∀ item ∈ items, qualifies item = true → 0 ≤ integerValue (priceCeil item)) :
    0 ≤ specDescriptionPoints items := by
  unfold specDescriptionPoints
  apply List.sum_nonneg
  intro x hx
  rw [List.mem_map] at hx
  obtain ⟨item, hmem, rfl⟩ := hx
  rw [List.mem_filter] at hmem
  exact h item hmem.1 hmem.2

set_option maxRecDepth 100000 in
/-- Claim C5, refuted as stated: `negativePriceReceipt`, whose only
contribution comes from an item with an empty description and the price
`-5`, scores `-1`.  Non-negative prices do not help when the `int` arithmetic
leaves its range: `overflowReceipt` scores `-2446744073709551611` and
`hugePriceItem` contributes `-2^63` on amd64.  The sign of
`ceiling(price * 0.2)` for the number written does not decide either: for the
price `-4.9999999999999999999` that ceiling is `0`, while the price is read
as the float64 `-5` and the item contributes `-1`. -/
theorem C5_counterexample_negative_price :
    computePoints amd64 negativePriceReceipt = -1 ∧
    computePoints arm64 negativePriceReceipt = -1 ∧
    ¬ (0 ≤ computePoints amd64 negativePriceReceipt) ∧
    computePoints amd64 overflowReceipt = -2446744073709551611 ∧
    computePoints arm64 overflowReceipt = -2446744073709551611 ∧
    itemPoints amd64 hugePriceItem = -9223372036854775808 ∧
    qualifies ⟨"", "-4.9999999999999999999"⟩ = true ∧
    exactCeilFifth "-4.9999999999999999999" = 0 ∧
    itemPoints amd64 ⟨"", "-4.9999999999999999999"⟩ = -1 ∧
    itemPoints arm64 ⟨"", "-4.9999999999999999999"⟩ = -1 := by
  decide!

/-- Claim C5, amended: for all receipts in which, for every item whose
trimmed description has a byte length divisible by 3, the float64
`math.Ceil(p * 0.2)` (`p` the float64 that `parsePrice` returns for the
price, the product a float64 product) is finite, non-negative and at most the
greatest `int`, and in which the sum of the seven contributions does not
exceed the greatest `int`, `computePoints` is non-negative (and equal to that
sum). -/
theorem C5_computePoints_nonneg (arch : Arch) (r : Receipt)
    (hitems : ∀ item ∈ r.Items, qualifies item = true →
      fitsInt (priceCeil item) = true ∧ 0 ≤ integerValue (priceCeil item))
    (hsum : specPoints r ≤ maxInt) :
    0 ≤ computePoints arch r ∧ computePoints arch r = specPoints r := by
  have hd := descriptionPoints_eq_spec arch r.Items fun item hi hq => (hitems item hi hq).1
  have hn := specDescriptionPoints_nonneg r.Items fun item hi hq => (hitems item hi hq).2
  have h0 : 0 ≤ specPoints r := by
    unfold specPoints
    have h1 := retailerPoints_nonneg r.Retailer
    have h2 := roundDollarPoints_nonneg r.TotalAmount
    have h3 := quarterPoints_nonneg r.TotalAmount
    have h4 := itemPairPoints_nonneg r.Items
    have h6 := oddDayPoints_nonneg r.Date
    have h7 := afternoonPoints_nonneg r.Time
    omega
  have hs : rulesSum arch r = specPoints r := by
    unfold rulesSum specPoints
    rw [hd]
  have hlo : minInt ≤ specPoints r := by
    unfold minInt
    omega
  have he : computePoints arch r = specPoints r := by
    rw [computePoints_eq_wrapInt, hs, wrapInt_of_range hlo hsum]
  exact ⟨he ▸ h0, he⟩

set_option maxRecDepth 100000 in
/-- Claim C5, an instance: the five-item receipt, with the non-negative
score `28`. -/
theorem C5_witness_fiveItemReceipt : 0 ≤ computePoints arm64 fiveItemReceipt :=
  (C5_computePoints_nonneg arm64 fiveItemReceipt (by decide) (by decide)).1

/-! ## Claim C6 -/

theorem isAlphaNumeric_iff_mem (ch : Char) :
    isAlphaNumeric ch = true ↔ ch ∈ asciiAlphanumerics := by
  constructor
  · intro h
    have hn : (65 ≤ ch.toNat ∧ ch.toNat ≤ 90) ∨ (97 ≤ ch.toNat ∧ ch.toNat ≤ 122) ∨
        (48 ≤ ch.toNat ∧ ch.toNat ≤ 57) := by
      simp only [isAlphaNumeric, Bool.or_eq_true, Bool.and_eq_true, decide_eq_true_eq] at h
      rcases h with (⟨h1, h2⟩ | ⟨h1, h2⟩) | ⟨h1, h2⟩
      · exact Or.inl ⟨h1, h2⟩
      · exact Or.inr (Or.inl ⟨h1, h2⟩)
      · exact Or.inr (Or.inr ⟨h1, h2⟩)
    have hc : ch = Char.ofNat ch.toNat := by simp
    generalize ch.toNat = n at hn hc
    subst hc
    rcases hn with ⟨h1, h2⟩ | ⟨h1, h2⟩ | ⟨h1, h2⟩ <;> interval_cases n <;> decide
  · intro h
    simp only [asciiAlphanumerics] at h
    revert ch
    decide

/-- Claim C6: `countAlphanumeric(s)` is the number of characters of `s` that
lie in `A-Z`, `a-z` or `0-9`; a character outside these ranges adds nothing;
`countAlphanumeric("Target") = 6`, the count is at most the number of
characters of `s`, and it is additive over concatenation. -/
theorem C6_countAlphanumeric_counts_ascii (s t : String) :
    countAlphanumeric s = (s.toList.countP fun ch => decide (ch ∈ asciiAlphanumerics) : Nat) ∧
    (∀ ch : Char, ch ∉ asciiAlphanumerics → countAlphanumeric (s.push ch) = countAlphanumeric s) ∧
    (∀ ch : Char, ch ∈ asciiAlphanumerics →
      countAlphanumeric (s.push ch) = countAlphanumeric s + 1) ∧
    countAlphanumeric "Target" = 6 ∧
    countAlphanumeric "M&M Corner Market" = 14 ∧
    countAlphanumeric "é٣ -_" = 0 ∧
    countAlphanumeric s ≤ s.length ∧
    countAlphanumeric (s ++ t) = countAlphanumeric s + countAlphanumeric t := by
  have hp : (fun ch => decide (ch ∈ asciiAlphanumerics)) = isAlphaNumeric := by
    funext ch
    rw [Bool.eq_iff_iff, decide_eq_true_eq]
    exact (isAlphaNumeric_iff_mem ch).symm
  refine ⟨?_, ?_, ?_, by decide, by decide, by decide, ?_, ?_⟩
  · rw [hp, countAlphanumeric_eq_countP]
  · intro ch hch
    have hf : ¬ isAlphaNumeric ch = true := fun h => hch ((isAlphaNumeric_iff_mem ch).mp h)
    simp only [countAlphanumeric_eq_countP, String.toList, String.push, List.countP_append,
      List.countP_cons_of_neg _ _ hf, List.countP_nil, add_zero]
  · intro ch hch
    have hf : isAlphaNumeric ch = true := (isAlphaNumeric_iff_mem ch).mpr hch
    simp only [countAlphanumeric_eq_countP, String.toList, String.push, List.countP_append,
      List.countP_cons_of_pos _ _ hf, List.countP_nil, zero_add]
    push_cast
    rfl
  · rw [countAlphanumeric_eq_countP]
    have h := List.countP_le_length isAlphaNumeric (l := s.toList)
    have hl : s.toList.length = s.length := rfl
    omega
  · simp only [countAlphanumeric_eq_countP, String.toList, String.data_append,
      List.countP_append]
    push_cast
    rfl

/-! ## Lemmas on float64 values -/

theorem int_cases (e : Int) : (∃ n : Nat, e = n) ∨ (∃ n : Nat, e = -((n : Int) + 1)) := by
  rcases e with n | n
  · exact Or.inl ⟨n, rfl⟩
  · exact Or.inr ⟨n, by simp [Int.negSucc_eq]⟩

theorem floorDiv_mul_eq_iff (m D : Nat) : m = m / D * D ↔ D ∣ m := by
  rw [Nat.dvd_iff_div_mul_eq]
  exact eq_comm

theorem ceilDiv_mul_eq_iff (m D : Nat) (hD : 0 < D) : m = (m + D - 1) / D * D ↔ D ∣ m := by
  constructor
  · intro h
    exact ⟨(m + D - 1) / D, by rw [mul_comm]; exact h⟩
  · rintro ⟨c, rfl⟩
    have h1 : D * c + D - 1 = D - 1 + D * c := by omega
    rw [h1, Nat.add_mul_div_left _ _ hD, Nat.div_eq_of_lt (by omega), zero_add, mul_comm]

theorem eq_floor_iff (s : Bool) (m : Nat) (e : Int) :
    F64.eq (.fin s m e) (F64.floor (.fin s m e)) = true ↔ 2 ^ (-e).toNat ∣ m * 2 ^ e.toNat := by
  rcases int_cases e with ⟨n, rfl⟩ | ⟨n, rfl⟩
  · cases s <;> simp [F64.eq, F64.floor]
  · have h1 : (-((n : Int) + 1)).toNat = 0 := by omega
    have h2 : (- -((n : Int) + 1)).toNat = n + 1 := by omega
    have h3 : min (-((n : Int) + 1)) 0 = -((n : Int) + 1) := by omega
    have h4 : (0 - -((n : Int) + 1)).toNat = n + 1 := by omega
    have hD : 0 < 2 ^ (n + 1) := Nat.two_pow_pos _
    cases s <;>
      simp only [F64.eq, F64.floor, h1, h2, h3, h4, sub_self, Int.toNat_zero, pow_zero, mul_one,
        beq_self_eq_true, Bool.true_or, Bool.and_true, beq_iff_eq]
    · exact floorDiv_mul_eq_iff m _
    · exact ceilDiv_mul_eq_iff m _ hD

theorem eq_mod_quarter_iff (s : Bool) (m : Nat) (e : Int) :
    F64.eq (F64.mod (.fin s m e) F64.quarter) F64.zero = true ↔
      2 ^ (-e).toNat ∣ 4 * (m * 2 ^ e.toNat) := by
  by_cases he : -2 ≤ e
  · have h1 : min e (-2) = -2 := by omega
    have h2 : (-e).toNat ≤ 2 := by omega
    have h3 : (2 : Nat) ^ (-e).toNat ∣ 4 := by
      have : (4 : Nat) = 2 ^ 2 := by norm_num
      rw [this]
      exact Nat.pow_dvd_pow 2 h2
    have h4 : 2 ^ (-e).toNat ∣ 4 * (m * 2 ^ e.toNat) := Dvd.dvd.mul_right h3 _
    simp only [F64.mod, F64.quarter, F64.zero, F64.eq, h1, h4, iff_true]
    simp [Nat.mod_one]
  · obtain ⟨n, rfl⟩ : ∃ n : Nat, e = -((n : Int) + 3) := ⟨(-e - 3).toNat, by omega⟩
    have h1 : min (-((n : Int) + 3)) (-2) = -((n : Int) + 3) := by omega
    have h2 : (-((n : Int) + 3)).toNat = 0 := by omega
    have h3 : (- -((n : Int) + 3)).toNat = n + 3 := by omega
    have h4 : (-2 - -((n : Int) + 3)).toNat = n + 1 := by omega
    have h5 : min (-((n : Int) + 3)) 0 = -((n : Int) + 3) := by omega
    have h6 : (4 : Nat) * m = 2 ^ 2 * m := by norm_num
    have h7 : (2 : Nat) ^ (n + 3) = 2 ^ 2 * 2 ^ (n + 1) := by ring
    simp only [F64.mod, F64.quarter, F64.zero, F64.eq, h1, h2, h3, h4, h5, sub_self,
      Int.toNat_zero, pow_zero, mul_one, one_mul, one_ne_zero, if_false, zero_mul,
      beq_iff_eq, Bool.and_eq_true, Bool.or_eq_true]
    rw [h6, h7, Nat.mul_dvd_mul_iff_left (by norm_num), Nat.dvd_iff_mod_eq_zero]
    constructor
    · exact fun h => h.1
    · exact fun h => ⟨h, Or.inr h⟩

theorem toRat_fin (s : Bool) (m : Nat) (e : Int) :
    F64.toRat (.fin s m e) =
      (if s then -1 else 1) * ((m * 2 ^ e.toNat : Nat) : ℚ) / ((2 ^ (-e).toNat : Nat) : ℚ) := by
  rcases int_cases e with ⟨n, rfl⟩ | ⟨n, rfl⟩
  · simp [F64.toRat, mul_assoc]
  · simp only [F64.toRat]
    have h1 : (-((n : Int) + 1)).toNat = 0 := by omega
    have h2 : (- -((n : Int) + 1)).toNat = n + 1 := by omega
    rw [h1, h2, zpow_neg]
    have h3 : ((2 : ℚ) ^ ((n : Int) + 1)) = ((2 ^ (n + 1) : Nat) : ℚ) := by
      push_cast
      exact_mod_cast zpow_natCast (2 : ℚ) (n + 1)
    rw [h3]
    simp [div_eq_mul_inv]

theorem signed_div_isInt_iff (s : Bool) (N D : Nat) (hD : 0 < D) :
    (∃ z : ℤ, (if s then -1 else 1) * (N : ℚ) / (D : ℚ) = z) ↔ D ∣ N := by
  have hD' : (D : ℚ) ≠ 0 := by exact_mod_cast hD.ne'
  constructor
  · rintro ⟨z, hz⟩
    rw [div_eq_iff hD'] at hz
    have h : ((N : ℤ) : ℚ) = ((if s then -z else z) * (D : ℤ) : ℤ) := by
      cases s
      · simp only [Bool.false_eq_true, if_false, one_mul] at hz ⊢
        push_cast
        exact hz
      · simp only [if_true] at hz ⊢
        push_cast
        linarith
    have h' : (N : ℤ) = (if s then -z else z) * (D : ℤ) := by exact_mod_cast h
    have : (D : ℤ) ∣ (N : ℤ) := ⟨_, by rw [h', mul_comm]⟩
    exact Int.natCast_dvd_natCast.mp this
  · rintro ⟨c, rfl⟩
    refine ⟨(if s then -1 else 1) * c, ?_⟩
    cases s
    · push_cast
      field_simp
    · push_cast
      field_simp
      ring

theorem isInt_iff (s : Bool) (m : Nat) (e : Int) :
    (∃ z : ℤ, F64.toRat (.fin s m e) = z) ↔ 2 ^ (-e).toNat ∣ m * 2 ^ e.toNat := by
  rw [toRat_fin]
  exact signed_div_isInt_iff s _ _ (Nat.two_pow_pos _)

theorem isQuarterMultiple_iff (s : Bool) (m : Nat) (e : Int) :
    (∃ z : ℤ, F64.toRat (.fin s m e) = z * (1 / 4)) ↔
      2 ^ (-e).toNat ∣ 4 * (m * 2 ^ e.toNat) := by
  rw [← signed_div_isInt_iff s _ _ (Nat.two_pow_pos _), toRat_fin]
  have key : (if s then -1 else 1) * ((4 * (m * 2 ^ e.toNat) : Nat) : ℚ) /
      ((2 ^ (-e).toNat : Nat) : ℚ) =
      4 * ((if s then -1 else 1) * ((m * 2 ^ e.toNat : Nat) : ℚ) / ((2 ^ (-e).toNat : Nat) : ℚ)) := by
    push_cast
    ring
  rw [key]
  constructor
  · rintro ⟨z, hz⟩
    exact ⟨z, by rw [hz]; ring⟩
  · rintro ⟨z, hz⟩
    exact ⟨z, by linarith⟩
theorem ceilDiv_bounds (N D : Nat) (hD : 0 < D) :
    (N + D - 1) / D * D < N + D ∧ N ≤ (N + D - 1) / D * D := by
  have h1 := Nat.div_mul_le_self (N + D - 1) D
  have h2 := Nat.lt_div_mul_add (a := N + D - 1) hD
  constructor <;> omega

theorem integerValue_ceil_fin (s : Bool) (m : Nat) (e : Int) :
    integerValue (F64.ceil (.fin s m e)) = ⌈F64.toRat (.fin s m e)⌉ := by
  rw [toRat_fin]
  have hD : 0 < 2 ^ (-e).toNat := Nat.two_pow_pos _
  cases s
  · simp only [F64.ceil, integerValue, F64.trunc, Int.toNat_zero, pow_zero, mul_one, neg_zero,
      Nat.div_one, Bool.false_eq_true, if_false, one_mul]
    generalize 2 ^ (-e).toNat = D at hD
    generalize m * 2 ^ e.toNat = N
    have hDq : (0 : ℚ) < (D : ℚ) := by exact_mod_cast hD
    symm
    rw [Int.ceil_eq_iff]
    obtain ⟨h1, h2⟩ := ceilDiv_bounds N D hD
    generalize (N + D - 1) / D = q at h1 h2 ⊢
    have h1q : ((q : ℚ)) * D < N + D := by exact_mod_cast h1
    have h2q : (N : ℚ) ≤ q * D := by exact_mod_cast h2
    constructor
    · rw [lt_div_iff₀ hDq]
      push_cast
      linarith
    · rw [div_le_iff₀ hDq]
      push_cast
      linarith
  · simp only [F64.ceil, integerValue, F64.trunc, Int.toNat_zero, pow_zero, mul_one, neg_zero,
      Nat.div_one, if_true]
    rw [neg_one_mul, neg_div, Int.ceil_neg, Rat.floor_natCast_div_natCast]
    rfl
/-! ## Lemmas on the two rules of the total -/

theorem roundDollarPoints_cases (total : String) :
    roundDollarPoints total = 50 ∨ roundDollarPoints total = 0 := by
  unfold roundDollarPoints
  split
  · exact Or.inl rfl
  · exact Or.inr rfl

theorem quarterPoints_cases (total : String) :
    quarterPoints total = 25 ∨ quarterPoints total = 0 := by
  unfold quarterPoints
  split
  · exact Or.inl rfl
  · exact Or.inr rfl

theorem roundDollarPoints_eq_fifty_iff (total : String) :
    roundDollarPoints total = 50 ↔
      (∃ neg, (parsePrice total).1 = F64.inf neg) ∨
      (∃ s m e, (parsePrice total).1 = F64.fin s m e ∧ ∃ z : ℤ, F64.toRat (.fin s m e) = z) := by
  unfold roundDollarPoints
  cases hx : (parsePrice total).1 with
  | nan => simp [F64.eq, F64.floor]
  | inf neg => simp [F64.eq, F64.floor]
  | fin s m e =>
    have hr := eq_floor_iff s m e
    rw [← isInt_iff s m e] at hr
    by_cases hb : F64.eq (.fin s m e) (F64.floor (.fin s m e)) = true
    · simp only [hb, if_true, true_iff]
      exact Or.inr ⟨s, m, e, rfl, hr.mp hb⟩
    · simp only [hb, Bool.false_eq_true, if_false]
      constructor
      · intro h
        exact absurd h (by decide)
      · rintro (⟨neg, hn⟩ | ⟨s2, m2, e2, he, hz⟩)
        · exact absurd hn (by simp)
        · cases he
          exact absurd (hr.mpr hz) hb

theorem quarterPoints_eq_twentyfive_iff (total : String) :
    quarterPoints total = 25 ↔
      ∃ s m e, (parsePrice total).1 = F64.fin s m e ∧
        ∃ z : ℤ, F64.toRat (.fin s m e) = z * (1 / 4) := by
  unfold quarterPoints
  cases hx : (parsePrice total).1 with
  | nan => simp [F64.eq, F64.mod]
  | inf neg => simp [F64.eq, F64.mod]
  | fin s m e =>
    have hq := eq_mod_quarter_iff s m e
    rw [← isQuarterMultiple_iff s m e] at hq
    by_cases hb : F64.eq (F64.mod (.fin s m e) F64.quarter) F64.zero = true
    · simp only [hb, if_true, true_iff]
      exact ⟨s, m, e, rfl, hq.mp hb⟩
    · simp only [hb, Bool.false_eq_true, if_false]
      constructor
      · intro h
        exact absurd h (by decide)
      · rintro ⟨s2, m2, e2, he, hz⟩
        cases he
        exact absurd (hq.mpr hz) hb

theorem infinite_total_points (total : String) (neg : Bool)
    (h : (parsePrice total).1 = F64.inf neg) :
    roundDollarPoints total = 50 ∧ quarterPoints total = 0 := by
  unfold roundDollarPoints quarterPoints
  rw [h]
  simp [F64.eq, F64.floor, F64.mod]

/-! ## Lemmas on the numbers as the texts write them

The definitions `writtenWhole`, `writtenQuarterMultiple`, `exactCeilFifth` and
`exactCappedCeilFifth` compute, on the fraction `n / d` that a text writes,
what their names say about the rational number. -/

theorem ceil_natCast_div (N D : Nat) (hD : 0 < D) :
    ⌈(N : ℚ) / (D : ℚ)⌉ = (((N + D - 1) / D : Nat) : Int) := by
  have hDq : (0 : ℚ) < (D : ℚ) := by exact_mod_cast hD
  rw [Int.ceil_eq_iff]
  obtain ⟨h1, h2⟩ := ceilDiv_bounds N D hD
  generalize (N + D - 1) / D = q at h1 h2 ⊢
  have h1q : ((q : ℚ)) * D < N + D := by exact_mod_cast h1
  have h2q : (N : ℚ) ≤ q * D := by exact_mod_cast h2
  constructor
  · rw [lt_div_iff₀ hDq]
    push_cast
    linarith
  · rw [div_le_iff₀ hDq]
    push_cast
    linarith

theorem writtenFraction_den_pos (s : String) (neg : Bool) (n d : Nat)
    (h : writtenFraction s = some (neg, n, d)) : 0 < d := by
  unfold writtenFraction at h
  cases hw : writtenDecimal s with
  | none => simp [hw] at h
  | some p =>
    obtain ⟨a, m, e⟩ := p
    simp only [hw, Option.map_some', Option.some.injEq, Prod.mk.injEq] at h
    obtain ⟨-, -, rfl⟩ := h
    positivity

theorem writtenWhole_iff (s : String) (neg : Bool) (n d : Nat)
    (h : writtenFraction s = some (neg, n, d)) :
    writtenWhole s = true ↔ ∃ z : ℤ, (if neg then -1 else 1) * (n : ℚ) / (d : ℚ) = z := by
  rw [signed_div_isInt_iff neg n d (writtenFraction_den_pos s neg n d h)]
  unfold writtenWhole
  rw [h]
  simp only [beq_iff_eq]
  exact Nat.dvd_iff_mod_eq_zero.symm

theorem writtenQuarterMultiple_iff (s : String) (neg : Bool) (n d : Nat)
    (h : writtenFraction s = some (neg, n, d)) :
    writtenQuarterMultiple s = true ↔
      ∃ z : ℤ, (if neg then -1 else 1) * (n : ℚ) / (d : ℚ) = z * (1 / 4) := by
  have hd := writtenFraction_den_pos s neg n d h
  have h4 := signed_div_isInt_iff neg (4 * n) d hd
  have key : (if neg then -1 else 1) * ((4 * n : Nat) : ℚ) / (d : ℚ) =
      4 * ((if neg then -1 else 1) * (n : ℚ) / (d : ℚ)) := by
    push_cast
    ring
  rw [key] at h4
  have h5 : (∃ z : ℤ, (if neg then -1 else 1) * (n : ℚ) / (d : ℚ) = z * (1 / 4)) ↔ d ∣ 4 * n := by
    rw [← h4]
    constructor
    · rintro ⟨z, hz⟩
      exact ⟨z, by rw [hz]; ring⟩
    · rintro ⟨z, hz⟩
      exact ⟨z, by linarith⟩
  rw [h5]
  unfold writtenQuarterMultiple
  rw [h]
  simp only [beq_iff_eq]
  exact Nat.dvd_iff_mod_eq_zero.symm

theorem exactCeilFifth_eq (s : String) (neg : Bool) (n d : Nat)
    (h : writtenFraction s = some (neg, n, d)) :
    exactCeilFifth s = ⌈(if neg then -1 else 1) * (n : ℚ) / (d : ℚ) * (1 / 5)⌉ := by
  have hd := writtenFraction_den_pos s neg n d h
  have hd5 : 0 < 5 * d := by omega
  have hdq : (d : ℚ) ≠ 0 := by exact_mod_cast hd.ne'
  unfold exactCeilFifth
  rw [h]
  cases neg
  · have e : (if false = true then (-1 : ℚ) else 1) * (n : ℚ) / (d : ℚ) * (1 / 5) =
        (n : ℚ) / ((5 * d : Nat) : ℚ) := by
      push_cast
      field_simp
      exact Or.inl (mul_comm _ _)
    rw [e, ceil_natCast_div n (5 * d) hd5]
    simp
  · have e : (if true = true then (-1 : ℚ) else 1) * (n : ℚ) / (d : ℚ) * (1 / 5) =
        -((n : ℚ) / ((5 * d : Nat) : ℚ)) := by
      push_cast
      field_simp
      exact Or.inl (mul_comm _ _)
    rw [e, Int.ceil_neg, Rat.floor_natCast_div_natCast]
    simp

theorem exactCappedCeilFifth_eq (s : String) (neg : Bool) (n d : Nat)
    (h : writtenFraction s = some (neg, n, d)) :
    exactCappedCeilFifth s =
      ⌈max ((if neg then -1 else 1) * (n : ℚ) / (d : ℚ)) 0 * (1 / 5)⌉ := by
  have hd := writtenFraction_den_pos s neg n d h
  have hd5 : 0 < 5 * d := by omega
  have hdq : (0 : ℚ) < (d : ℚ) := by exact_mod_cast hd
  unfold exactCappedCeilFifth
  rw [h]
  cases neg
  · have hn : (0 : ℚ) ≤ (n : ℚ) / (d : ℚ) := by positivity
    have e : max ((if false = true then (-1 : ℚ) else 1) * (n : ℚ) / (d : ℚ)) 0 * (1 / 5) =
        (n : ℚ) / ((5 * d : Nat) : ℚ) := by
      simp only [Bool.false_eq_true, if_false, one_mul, max_eq_left hn]
      push_cast
      field_simp
      exact Or.inl (mul_comm _ _)
    rw [e, ceil_natCast_div n (5 * d) hd5]
  · have hn : (-1 : ℚ) * (n : ℚ) / (d : ℚ) ≤ 0 := by
      have : (0 : ℚ) ≤ (n : ℚ) / (d : ℚ) := by positivity
      have e2 : (-1 : ℚ) * (n : ℚ) / (d : ℚ) = -((n : ℚ) / (d : ℚ)) := by ring
      rw [e2]
      linarith
    simp only [if_true, max_eq_right hn, zero_mul, Int.ceil_zero]

/-! ## Claim C7 -/

set_option maxRecDepth 100000 in
/-- Claim C7, refuted as stated: the total `100.00000000000000001` parses
without error; the number written, `10000000000000000001 / 10^17`, has a
fractional part that is not zero and is no multiple of `0.25`, yet the
round-dollar rule adds 50 and the quarter-multiple rule adds 25, because the
text is read as the float64 `100`.  Likewise the total
`0.2500000000000000001` is no multiple of `0.25` and earns 25. -/
theorem C7_counterexample_rounded_total :
    parsePrice "100.00000000000000001" = (.fin false 7036874417766400 (-46), none) ∧
    writtenFraction "100.00000000000000001" =
      some (false, 10000000000000000001, 100000000000000000) ∧
    writtenWhole "100.00000000000000001" = false ∧
    writtenQuarterMultiple "100.00000000000000001" = false ∧
    roundDollarPoints "100.00000000000000001" = 50 ∧
    quarterPoints "100.00000000000000001" = 25 ∧
    parsePrice "0.2500000000000000001" = (.fin false 4503599627370496 (-54), none) ∧
    writtenFraction "0.2500000000000000001" =
      some (false, 2500000000000000001, 10000000000000000000) ∧
    writtenQuarterMultiple "0.2500000000000000001" = false ∧
    quarterPoints "0.2500000000000000001" = 25 := by
  decide

/-- Claim C7, amended: for every total that `parsePrice` parses, without
error, to a finite float64 `x`, the round-dollar rule adds 50 exactly when
`x` has a zero fractional part, and nothing otherwise; the quarter-multiple
rule adds 25 exactly when `x` is an integer multiple of `0.25`, and nothing
otherwise.  The total `100.00` yields `+75` from the two rules and the total
`35.35` yields `+0`. -/
theorem C7_total_rules (total : String) (s : Bool) (m : Nat) (e : Int)
    (h : parsePrice total = (.fin s m e, none)) :
    (roundDollarPoints total = 50 ↔ ∃ z : ℤ, F64.toRat (.fin s m e) = z) ∧
    (roundDollarPoints total = 0 ↔ ¬ ∃ z : ℤ, F64.toRat (.fin s m e) = z) ∧
    (quarterPoints total = 25 ↔ ∃ z : ℤ, F64.toRat (.fin s m e) = z * (1 / 4)) ∧
    (quarterPoints total = 0 ↔ ¬ ∃ z : ℤ, F64.toRat (.fin s m e) = z * (1 / 4)) ∧
    roundDollarPoints "100.00" + quarterPoints "100.00" = 75 ∧
    roundDollarPoints "35.35" + quarterPoints "35.35" = 0 := by
  have hr := eq_floor_iff s m e
  have hq := eq_mod_quarter_iff s m e
  rw [← isInt_iff s m e] at hr
  rw [← isQuarterMultiple_iff s m e] at hq
  unfold roundDollarPoints quarterPoints
  rw [h]
  refine ⟨?_, ?_, ?_, ?_, by decide, by decide⟩
  · rw [← hr]
    by_cases hb : F64.eq (.fin s m e) (F64.floor (.fin s m e)) = true <;> simp [hb]
  · rw [← hr]
    by_cases hb : F64.eq (.fin s m e) (F64.floor (.fin s m e)) = true <;> simp [hb]
  · rw [← hq]
    by_cases hb : F64.eq (F64.mod (.fin s m e) F64.quarter) F64.zero = true <;> simp [hb]
  · rw [← hq]
    by_cases hb : F64.eq (F64.mod (.fin s m e) F64.quarter) F64.zero = true <;> simp [hb]

set_option maxRecDepth 100000 in
/-- Claim C7, an instance: the total `100.00` parses to the float64
`7036874417766400 * 2^-46`, which is `100`, and both rules apply. -/
theorem C7_witness_hundred :
    parsePrice "100.00" = (.fin false 7036874417766400 (-46), none) ∧
    (∃ z : ℤ, F64.toRat (.fin false 7036874417766400 (-46)) = z) ∧
    (∃ z : ℤ, F64.toRat (.fin false 7036874417766400 (-46)) = z * (1 / 4)) := by
  have h := C7_total_rules "100.00" false 7036874417766400 (-46) (by decide)
  exact ⟨by decide, h.1.mp (by decide), h.2.2.1.mp (by decide)⟩

/-! ## Claim C8 -/

/-- Claim C8, refuted as stated: the totals `Inf`, `+Infinity` and `1e999`
give the value `+Inf`, and `-Inf` gives `-Inf`; an infinity equals its own
floor while `math.Mod` of an infinity by `0.25` is NaN: the round-dollar rule
fires, the quarter-multiple rule does not, and the two rules contribute
exactly `50`. -/
theorem C8_counterexample_infinite_total :
    (parsePrice "Inf").1 = F64.inf false ∧
    roundDollarPoints "Inf" = 50 ∧ quarterPoints "Inf" = 0 ∧
    (parsePrice "1e999").1 = F64.inf false ∧
    roundDollarPoints "1e999" + quarterPoints "1e999" = 50 ∧
    (parsePrice "-Inf").1 = F64.inf true ∧
    roundDollarPoints "-Inf" + quarterPoints "-Inf" = 50 ∧
    (parsePrice "+Infinity").1 = F64.inf false ∧
    roundDollarPoints "+Infinity" + quarterPoints "+Infinity" = 50 := by
  decide!

/-- Claim C8, amended: for every total that `parsePrice` does not evaluate to
an infinity (the value is a finite float64 or NaN), whenever the round-dollar
rule fires the quarter-multiple rule fires as well, and the two rules together
contribute 0, 25 or 75; for every total that `parsePrice` evaluates to an
infinity, the round-dollar rule fires, the quarter-multiple rule does not, and
the two rules contribute exactly 50. -/
theorem C8_round_dollar_implies_quarter (total : String) :
    ((∀ neg, (parsePrice total).1 ≠ F64.inf neg) →
      (roundDollarPoints total = 50 → quarterPoints total = 25) ∧
      (roundDollarPoints total + quarterPoints total = 0 ∨
        roundDollarPoints total + quarterPoints total = 25 ∨
        roundDollarPoints total + quarterPoints total = 75)) ∧
    ((∃ neg, (parsePrice total).1 = F64.inf neg) →
      roundDollarPoints total = 50 ∧ quarterPoints total = 0 ∧
      roundDollarPoints total + quarterPoints total = 50) := by
  constructor
  · intro h
    unfold roundDollarPoints quarterPoints
    cases hx : (parsePrice total).1 with
    | nan => simp [F64.eq, F64.floor, F64.mod]
    | inf neg => exact absurd hx (h neg)
    | fin s m e =>
      have hr := eq_floor_iff s m e
      have hq := eq_mod_quarter_iff s m e
      by_cases hb : F64.eq (.fin s m e) (F64.floor (.fin s m e)) = true
      · have hd : 2 ^ (-e).toNat ∣ 4 * (m * 2 ^ e.toNat) := Dvd.dvd.mul_left (hr.mp hb) 4
        have hc := hq.mpr hd
        simp [hb, hc]
      · by_cases hc : F64.eq (F64.mod (.fin s m e) F64.quarter) F64.zero = true <;> simp [hb, hc]
  · rintro ⟨neg, h⟩
    obtain ⟨h1, h2⟩ := infinite_total_points total neg h
    exact ⟨h1, h2, by rw [h1, h2]; rfl⟩

set_option maxRecDepth 100000 in
/-- Claim C8, two instances: the total `9.00` earns both `50` and `25`; the
total `-Inf` earns `50` from the two rules. -/
theorem C8_witness_nine_dollars :
    (roundDollarPoints "9.00" = 50 ∧ quarterPoints "9.00" = 25) ∧
    roundDollarPoints "-Inf" + quarterPoints "-Inf" = 50 := by
  have h := C8_round_dollar_implies_quarter "9.00"
  have h2 := C8_round_dollar_implies_quarter "-Inf"
  exact ⟨⟨by decide, (h.1 (by decide)).1 (by decide)⟩, (h2.2 ⟨true, by decide⟩).2.2⟩

/-! ## Claim C9 -/

theorem itemPairPoints_eq_floor (items : List Item) :
    itemPairPoints items = 5 * ⌊(items.length : ℚ) / 2⌋ := by
  unfold itemPairPoints
  have h := Rat.floor_intCast_div_natCast (items.length : ℤ) 2
  simp only [Int.cast_natCast, Nat.cast_ofNat] at h
  rw [h]

/-- Claim C9: for a receipt with `n` items the item-pair rule contributes
`5 * floor(n / 2)` to `computePoints`, whatever the items are: 0 for no item
and for one item, 5 for two, 10 for four and for five; the contribution is
non-decreasing in `n`. -/
theorem C9_itemPairPoints (arch : Arch) (r : Receipt) (items others : List Item)
    (a b c d e : Item) :
    itemPairPoints items = 5 * ⌊(items.length : ℚ) / 2⌋ ∧
    computePoints arch r =
      wrapInt (5 * ⌊(r.Items.length : ℚ) / 2⌋ + (retailerPoints r.Retailer +
        roundDollarPoints r.TotalAmount + quarterPoints r.TotalAmount +
        descriptionPoints arch r.Items + oddDayPoints r.Date + afternoonPoints r.Time)) ∧
    (items.length = others.length → itemPairPoints items = itemPairPoints others) ∧
    itemPairPoints [] = 0 ∧ itemPairPoints [a] = 0 ∧ itemPairPoints [a, b] = 5 ∧
    itemPairPoints [a, b, c, d] = 10 ∧ itemPairPoints [a, b, c, d, e] = 10 ∧
    (items.length ≤ others.length → itemPairPoints items ≤ itemPairPoints others) := by
  refine ⟨itemPairPoints_eq_floor items, ?_, ?_, by norm_num [itemPairPoints],
    by norm_num [itemPairPoints], by norm_num [itemPairPoints], by norm_num [itemPairPoints],
    by norm_num [itemPairPoints], ?_⟩
  · rw [computePoints_eq_wrapInt, rulesSum, ← itemPairPoints_eq_floor]
    congr 1
    ring
  · intro h
    unfold itemPairPoints
    rw [h]
  · intro h
    unfold itemPairPoints
    omega

/-! ## Claim C10 -/

theorem TrimSpace_of_all_space (l : List Char) (h : ∀ c ∈ l, isSpace c = true) :
    TrimSpace l = [] := by
  unfold TrimSpace
  have h1 : l.dropWhile isSpace = [] := List.dropWhile_eq_nil_iff.mpr h
  rw [h1]
  rfl

theorem fitsInt_ceil_finite {x : F64} (h : fitsInt (F64.ceil x) = true) :
    ∃ s m e, x = .fin s m e := by
  cases x with
  | nan => simp [F64.ceil, fitsInt] at h
  | inf neg => simp [F64.ceil, fitsInt] at h
  | fin s m e => exact ⟨s, m, e, rfl⟩

set_option maxRecDepth 100000 in
/-- Claim C10, refuted as stated: `hugePriceItem` qualifies (its description
is empty) and `math.Ceil(price * 0.2)` is `200000000000000018050673803264`,
yet the item contributes `-2^63` on amd64 and `2^63 - 1` on arm64; the two
qualifying items of `overflowReceipt` contribute `8 * 10^18` each while the
loop leaves `-2446744073709551616` in `points`.  The price and the product
are float64 values: for the price `5.0000000000000001` the number
`ceiling(price * 0.2)` is `2` and the item contributes `1`; for the price
`1152921504606846976` it is `230584300921369396` and the item contributes
`230584300921369408`. -/
theorem C10_counterexample_huge_price :
    qualifies hugePriceItem = true ∧
    integerValue (priceCeil hugePriceItem) = 200000000000000018050673803264 ∧
    itemPoints amd64 hugePriceItem = -9223372036854775808 ∧
    itemPoints arm64 hugePriceItem = 9223372036854775807 ∧
    (overflowReceipt.Items.map (itemPoints amd64)) = [8000000000000000000, 8000000000000000000] ∧
    overflowReceipt.Items.foldl (itemStep amd64) (0 : Int) = -2446744073709551616 ∧
    qualifies ⟨"", "5.0000000000000001"⟩ = true ∧
    writtenFraction "5.0000000000000001" = some (false, 50000000000000001, 10000000000000000) ∧
    exactCeilFifth "5.0000000000000001" = 2 ∧
    itemPoints amd64 ⟨"", "5.0000000000000001"⟩ = 1 ∧
    itemPoints arm64 ⟨"", "5.0000000000000001"⟩ = 1 ∧
    exactCeilFifth "1152921504606846976" = 230584300921369396 ∧
    itemPoints amd64 ⟨"", "1152921504606846976"⟩ = 230584300921369408 := by
  decide!

/-- Claim C10, amended: an item whose trimmed description has a byte length
not divisible by 3 contributes 0 whatever the price; an item whose trimmed
description has a byte length divisible by 3, in particular an empty or
all-whitespace description, contributes `int(math.Ceil(p * 0.2))`, where `p`
is the float64 that `parsePrice` returns for the price and `p * 0.2` the
float64 product; this is the ceiling of that float64 product provided that the
ceiling is finite and lies in the `int` range; the loop adds the items'
contributions to `points` modulo `2^64`; an item described `Gatorade`
contributes 0 for every price string. -/
theorem C10_itemPoints (arch : Arch) (item : Item) :
    (qualifies item = decide (3 ∣ goLen (TrimSpace item.Description.toList))) ∧
    (qualifies item = false → itemPoints arch item = 0) ∧
    (qualifies item = true → fitsInt (priceCeil item) = true →
      itemPoints arch item = ⌈F64.toRat (F64.mul (parsePrice item.Price).1 F64.fifth)⌉) ∧
    ((∀ c ∈ item.Description.toList, isSpace c = true) → qualifies item = true) ∧
    (∀ price : String, itemPoints arch ⟨"Gatorade", price⟩ = 0) ∧
    (∀ (items : List Item) (p : Int), items.foldl (itemStep arch) (wrapInt p) =
      wrapInt (p + (items.map (itemPoints arch)).sum)) ∧
    (qualifies item = true → itemPoints arch item =
      toInt arch (F64.ceil (F64.mul (parsePrice item.Price).1 F64.fifth))) := by
  refine ⟨?_, ?_, ?_, ?_, ?_, ?_, ?_⟩
  · unfold qualifies
    rw [Bool.eq_iff_iff, beq_iff_eq, decide_eq_true_eq, Nat.dvd_iff_mod_eq_zero]
  · intro hq
    simp [itemPoints, hq]
  · intro hq hf
    obtain ⟨s, m, e, hx⟩ := fitsInt_ceil_finite (x := F64.mul (parsePrice item.Price).1 F64.fifth) hf
    have hi : itemPoints arch item = integerValue (priceCeil item) := by
      simp only [itemPoints, hq, if_true]
      exact toInt_of_fitsInt arch hf
    rw [hi, priceCeil, hx, integerValue_ceil_fin]
  · intro hsp
    unfold qualifies
    rw [TrimSpace_of_all_space _ hsp]
    rfl
  · intro price
    have hq : qualifies ⟨"Gatorade", price⟩ = false := by
      have h : (goLen (TrimSpace "Gatorade".toList) % 3 == 0) = false := by decide
      exact h
    simp [itemPoints, hq]
  · intro items p
    exact foldl_itemStep arch items p
  · intro hq
    simp only [itemPoints, hq, if_true, priceCeil]

set_option maxRecDepth 100000 in
/-- Claim C10, an instance: the item `Emils Cheese Pizza` at `12.25`
qualifies and contributes the ceiling of the float64 product, `3`. -/
theorem C10_witness_pizza :
    itemPoints amd64 ⟨"Emils Cheese Pizza", "12.25"⟩ =
      ⌈F64.toRat (F64.mul (parsePrice "12.25").1 F64.fifth)⌉ ∧
    itemPoints amd64 ⟨"Emils Cheese Pizza", "12.25"⟩ = 3 :=
  ⟨(C10_itemPoints amd64 ⟨"Emils Cheese Pizza", "12.25"⟩).2.2.1 (by decide) (by decide),
    by decide⟩

/-! ## Claim C11 -/

theorem itemPoints_of_qualifies (arch : Arch) (description price : String)
    (h : qualifies ⟨description, price⟩ = true) :
    itemPoints arch ⟨description, price⟩ =
      toInt arch (F64.ceil (F64.mul (parsePrice price).1 F64.fifth)) := by
  unfold itemPoints
  rw [if_pos h]
  rfl

set_option maxRecDepth 100000 in
/-- Claim C11, refuted as stated: the description `Mountain Dew 12PK` has 17
bytes (and 17 characters), 17 is not divisible by 3, the item does not
qualify and contributes `0`, although `ceiling(6.49 * 0.2)` is `2`. -/
theorem C11_counterexample_mountain_dew :
    qualifies ⟨"Mountain Dew 12PK", "6.49"⟩ = false ∧
    goLen (TrimSpace "Mountain Dew 12PK".toList) = 17 ∧
    "Mountain Dew 12PK".length = 17 ∧
    itemPoints amd64 ⟨"Mountain Dew 12PK", "6.49"⟩ = 0 ∧
    itemPoints arm64 ⟨"Mountain Dew 12PK", "6.49"⟩ = 0 ∧
    itemPoints amd64 ⟨"Mountain Dew 12PK", "6.49"⟩ ≠ 2 := by
  decide

set_option maxRecDepth 100000 in
/-- Claim C11, amended: an item with description `Mountain Dew 12PK` and
price `6.49` does not qualify for the description-length rule (its trimmed
length, 17, is not divisible by 3) and contributes `0` points on every
platform; `ceiling(6.49 * 0.2) = 2` is what an item with that price
contributes when its description qualifies. -/
theorem C11_mountain_dew_contributes_nothing (arch : Arch) (description : String) :
    qualifies ⟨"Mountain Dew 12PK", "6.49"⟩ = false ∧
    goLen (TrimSpace "Mountain Dew 12PK".toList) % 3 = 2 ∧
    itemPoints arch ⟨"Mountain Dew 12PK", "6.49"⟩ = 0 ∧
    ⌈F64.toRat (F64.mul (parsePrice "6.49").1 F64.fifth)⌉ = 2 ∧
    (qualifies ⟨description, "6.49"⟩ = true → itemPoints arch ⟨description, "6.49"⟩ = 2) := by
  have hq : qualifies ⟨"Mountain Dew 12PK", "6.49"⟩ = false := by decide
  have hc : F64.ceil (F64.mul (parsePrice "6.49").1 F64.fifth) = .fin false 2 0 := by decide
  have hm : F64.mul (parsePrice "6.49").1 F64.fifth = .fin false 5845672316326904 (-52) := by
    decide
  have h2 : integerValue (F64.ceil (.fin false 5845672316326904 (-52))) = 2 := by decide
  refine ⟨hq, by decide, ?_, ?_, ?_⟩
  · unfold itemPoints
    rw [hq]
    rfl
  · rw [hm, ← integerValue_ceil_fin]
    exact h2
  · intro hd
    rw [itemPoints_of_qualifies arch description "6.49" hd, hc,
      toInt_of_fitsInt arch (show fitsInt (.fin false 2 0) = true by decide)]
    rfl

/-! ## Claim C12 -/

theorem digitChar_spec (n : Nat) :
    isDigit (digitChar n) = true ∧ digitVal (digitChar n) = n % 10 ∧
      digitChar n ≠ '-' ∧ digitChar n ≠ ':' := by
  have h : ∀ k, k < 10 → isDigit (Char.ofNat (48 + k)) = true ∧
      digitVal (Char.ofNat (48 + k)) = k ∧ Char.ofNat (48 + k) ≠ '-' ∧
      Char.ofNat (48 + k) ≠ ':' := by decide
  exact h (n % 10) (Nat.mod_lt _ (by decide))

theorem getnum_twoDigits (n : Nat) (rest : List Char) (fixed : Bool) (hn : n < 100) :
    getnum (twoDigits n ++ rest) fixed = some (n, rest) := by
  obtain ⟨h1, h2, -, -⟩ := digitChar_spec (n / 10)
  obtain ⟨h3, h4, -, -⟩ := digitChar_spec n
  simp only [twoDigits, getnum, List.cons_append, List.nil_append, h1, h2, h3, h4,
    not_true_eq_false, if_false, if_true]
  congr 2
  omega

theorem calendarDays_eq_daysIn (year month : Nat) (h1 : 1 ≤ month) (h2 : month ≤ 12) :
    calendarDays year month = daysIn month year := by
  interval_cases month <;> simp [calendarDays, daysIn, isLeap]
  by_cases h4 : year % 4 = 0 <;> by_cases h100 : year % 100 = 0 <;>
    by_cases h400 : year % 400 = 0 <;> simp [h4, h100, h400] <;> omega

theorem calendarDays_pos_month (year month : Nat) (h : 1 ≤ calendarDays year month) :
    1 ≤ month ∧ month ≤ 12 := by
  unfold calendarDays at h
  split at h <;> simp_all

theorem parseDate_formatDate (year month day : Nat) (h : validDate year month day) :
    parseDate (formatDate year month day).toList = some ⟨year, month, day, 0, 0⟩ := by
  obtain ⟨hy, hd1, hd2⟩ := h
  obtain ⟨hm1, hm2⟩ := calendarDays_pos_month year month (le_trans hd1 hd2)
  have hdays := calendarDays_eq_daysIn year month hm1 hm2
  have hd3 : day ≤ 31 := by
    have : calendarDays year month ≤ 31 := by
      unfold calendarDays
      split <;> simp
      split <;> simp
    omega
  obtain ⟨a1, a2, -, -⟩ := digitChar_spec (year / 1000)
  obtain ⟨b1, b2, -, -⟩ := digitChar_spec (year / 100)
  obtain ⟨c1, c2, -, -⟩ := digitChar_spec (year / 10)
  obtain ⟨d1, d2, -, -⟩ := digitChar_spec year
  have hyear : ((year / 1000 % 10 * 10 + year / 100 % 10) * 10 + year / 10 % 10) * 10 +
      year % 10 = year := by omega
  have g1 := getnum_twoDigits month ('-' :: twoDigits day) true (by omega)
  have g2 := getnum_twoDigits day [] true (by omega)
  rw [List.append_nil] at g2
  simp only [formatDate, String.toList, fourDigits, List.cons_append, List.nil_append, parseDate,
    a1, a2, b1, b2, c1, c2, d1, d2, and_self, not_true_eq_false, if_false, skip, if_true,
    Option.bind_some, Option.some_bind, g1, g2, hyear]
  have hm0 : ¬ (month = 0 ∨ 12 < month) := by omega
  have hdd : ¬ (day < 1 ∨ daysIn month year < day) := by omega
  simp [hm0]
  omega

theorem oddDayPoints_of_parse (date : String) (t : Time) (h : parseDate date.toList = some t) :
    oddDayPoints date = if t.day % 2 = 1 then 6 else 0 := by
  unfold oddDayPoints timeParse
  simp only [h, Time.Day]
  by_cases hd : t.day % 2 = 1
  · have : ((t.day : Int) % 2 ≠ 0) := by omega
    simp [hd, this]
  · have : ¬ ((t.day : Int) % 2 ≠ 0) := by omega
    simp [hd, this]

set_option maxRecDepth 100000 in
/-- Claim C12: for every purchaseDate that is the text `YYYY-MM-DD` of a
calendar date, and more generally for every purchaseDate that `time.Parse`
accepts, the odd-day rule contributes 6 when the day of the month is odd and
0 when it is even, whatever the year and the month: `2022-01-01` gives 6 and
`2022-01-02` gives 0. -/
theorem C12_odd_day_rule (year month day : Nat) (h : validDate year month day) :
    (timeParse .date (formatDate year month day)).2 = false ∧
    (timeParse .date (formatDate year month day)).1.Day = day ∧
    (day % 2 = 1 → oddDayPoints (formatDate year month day) = 6) ∧
    (day % 2 = 0 → oddDayPoints (formatDate year month day) = 0) ∧
    (∀ (date : String) (t : Time), parseDate date.toList = some t →
      oddDayPoints date = if t.day % 2 = 1 then 6 else 0) ∧
    oddDayPoints "2022-01-01" = 6 ∧ oddDayPoints "2022-01-02" = 0 := by
  have hp := parseDate_formatDate year month day h
  have ho := oddDayPoints_of_parse _ _ hp
  refine ⟨?_, ?_, ?_, ?_, oddDayPoints_of_parse, by decide, by decide⟩
  · simp only [timeParse, hp]
  · simp only [timeParse, hp, Time.Day]
  · intro hd
    rw [ho]
    simp [hd]
  · intro hd
    rw [ho]
    simp [hd]

set_option maxRecDepth 100000 in
/-- Claim C12, an instance: 29 February 2024. -/
theorem C12_witness_leap_day :
    formatDate 2024 2 29 = "2024-02-29" ∧ oddDayPoints (formatDate 2024 2 29) = 6 :=
  ⟨by decide, (C12_odd_day_rule 2024 2 29 ⟨by decide, by decide, by decide⟩).2.2.1 (by decide)⟩

/-! ## Claim C13 -/

theorem digitChar_digitVal (c : Char) (h : isDigit c = true) :
    digitChar (digitVal c) = c ∧ digitVal c ≤ 9 := by
  simp only [isDigit, Bool.and_eq_true, decide_eq_true_eq] at h
  have hc : Char.ofNat c.toNat = c := by simp
  unfold digitChar digitVal
  have h1 : 48 + (c.toNat - 48) % 10 = c.toNat := by omega
  rw [h1, hc]
  exact ⟨rfl, by omega⟩

theorem getnum_two_digits_inv (s rest : List Char) (fixed : Bool) (n : Nat)
    (h : getnum s fixed = some (n, rest)) (hn : 10 ≤ n ∨ fixed = true) :
    s = twoDigits n ++ rest ∧ n < 100 := by
  unfold getnum at h
  split at h
  · exact absurd h (by simp)
  · rename_i a r
    by_cases ha : isDigit a = true
    · obtain ⟨ha1, ha2⟩ := digitChar_digitVal a ha
      simp only [ha, not_true_eq_false, if_false] at h
      split at h
      · rename_i b r2
        by_cases hb : isDigit b = true
        · obtain ⟨hb1, hb2⟩ := digitChar_digitVal b hb
          simp only [hb, if_true, Option.some.injEq, Prod.mk.injEq] at h
          obtain ⟨hnn, hr⟩ := h
          subst hr
          have e1 : n / 10 = digitVal a := by omega
          have e2 : n % 10 = digitVal b := by omega
          refine ⟨?_, by omega⟩
          have e3 : digitChar n = digitChar (digitVal b) := by
            unfold digitChar
            rw [e2, Nat.mod_eq_of_lt (by omega : digitVal b < 10)]
          simp only [twoDigits, List.cons_append, List.nil_append, e1, e3, ha1, hb1]
        · simp only [hb, Bool.false_eq_true, if_false] at h
          by_cases hf : fixed = true
          · simp [hf] at h
          · simp only [hf, Bool.false_eq_true, if_false, Option.some.injEq, Prod.mk.injEq] at h
            rcases hn with hn | hn
            · omega
            · exact absurd hn hf
      · by_cases hf : fixed = true
        · simp [hf] at h
        · simp only [hf, Bool.false_eq_true, if_false, Option.some.injEq, Prod.mk.injEq] at h
          rcases hn with hn | hn
          · omega
          · exact absurd hn hf
    · simp [ha] at h

theorem parseClock_formatClock (hour minute : Nat) (hh : hour < 24) (hm : minute < 60) :
    parseClock (formatClock hour minute).toList = some ⟨0, 1, 1, hour, minute⟩ := by
  have g1 := getnum_twoDigits hour (':' :: twoDigits minute) false (by omega)
  have g2 := getnum_twoDigits minute [] true (by omega)
  rw [List.append_nil] at g2
  have h1 : ¬ 24 ≤ hour := by omega
  have h2 : ¬ 60 ≤ minute := by omega
  simp only [formatClock, String.toList, parseClock, g1, g2, Option.some_bind, h1, h2, if_false,
    skip, if_true]
  simp

theorem parseClock_two_digit_hour (l : List Char) (t : Time) (h : parseClock l = some t)
    (ht : 10 ≤ t.hour) :
    l = (formatClock t.hour t.minute).toList ∧ t.hour < 24 ∧ t.minute < 60 := by
  unfold parseClock at h
  cases hg : getnum l false with
  | none => simp [hg] at h
  | some p =>
    obtain ⟨hour, rest⟩ := p
    simp only [hg, Option.some_bind] at h
    by_cases h24 : 24 ≤ hour
    · simp [h24] at h
    · simp only [h24, if_false] at h
      cases hs : skip rest ':' with
      | none => simp [hs] at h
      | some rest2 =>
        simp only [hs, Option.some_bind] at h
        cases hg2 : getnum rest2 true with
        | none => simp [hg2] at h
        | some q =>
          obtain ⟨minute, rest3⟩ := q
          simp only [hg2, Option.some_bind] at h
          by_cases h60 : 60 ≤ minute
          · simp [h60] at h
          · simp only [h60, if_false] at h
            by_cases hr : rest3 ≠ []
            · simp [hr] at h
            · simp only [hr, if_false, Option.some.injEq] at h
              subst h
              simp only at ht ⊢
              have hr' : rest3 = [] := by simpa using hr
              subst hr'
              obtain ⟨e1, -⟩ := getnum_two_digits_inv l rest false hour hg (Or.inl ht)
              obtain ⟨e2, -⟩ := getnum_two_digits_inv rest2 [] true minute hg2 (Or.inr rfl)
              have e3 : rest = ':' :: rest2 := by
                unfold skip at hs
                split at hs
                · simp at hs
                · rename_i v r
                  by_cases hv : v = ':'
                  · simp only [hv, if_true, Option.some.injEq] at hs
                    rw [hv, hs]
                  · simp [hv] at hs
              refine ⟨?_, by omega, by omega⟩
              rw [e1, e3, e2]
              simp [formatClock]

theorem afternoonPoints_eq_ten_iff (time : String) :
    afternoonPoints time = 10 ↔
      ∃ t, parseClock time.toList = some t ∧ (t.hour = 14 ∨ t.hour = 15) := by
  unfold afternoonPoints timeParse
  cases hp : parseClock time.toList with
  | none =>
    simp only [Time.Hour, Time.zeroTime]
    constructor
    · intro h
      simp at h
    · rintro ⟨t, ht, -⟩
      exact absurd ht (by simp)
  | some t =>
    simp only [Time.Hour]
    constructor
    · intro h
      refine ⟨t, rfl, ?_⟩
      by_cases hc : (t.hour : Int) ≥ 14 ∧ (t.hour : Int) < 16
      · omega
      · simp [hc] at h
        omega
    · rintro ⟨t2, ht2, hh⟩
      simp only [Option.some.injEq] at ht2
      subst ht2
      have hc : (t.hour : Int) ≥ 14 ∧ (t.hour : Int) < 16 := by omega
      simp [hc]

/-- Claim C13: the afternoon-time rule contributes 10 exactly when
purchaseTime parses as a 24-hour time with hour 14 or 15, that is, exactly
when it is `14:MM` or `15:MM` with a minute `00` to `59`; `14:00` and `15:59`
qualify, `13:59` and `16:00` do not; otherwise the rule contributes 0, in
particular for a time that fails to parse. -/
theorem C13_afternoon_rule (time : String) :
    (afternoonPoints time = 10 ↔
      ∃ t, parseClock time.toList = some t ∧ (t.hour = 14 ∨ t.hour = 15)) ∧
    (afternoonPoints time = 10 ↔
      ∃ minute, minute < 60 ∧ (time = formatClock 14 minute ∨ time = formatClock 15 minute)) ∧
    (afternoonPoints time = 10 ∨ afternoonPoints time = 0) ∧
    ((timeParse .clock time).2 = true → afternoonPoints time = 0) ∧
    afternoonPoints "14:00" = 10 ∧ afternoonPoints "15:59" = 10 ∧
    afternoonPoints "13:59" = 0 ∧ afternoonPoints "16:00" = 0 := by
  refine ⟨afternoonPoints_eq_ten_iff time, ?_, ?_, ?_, by decide, by decide, by decide,
    by decide⟩
  · rw [afternoonPoints_eq_ten_iff]
    constructor
    · rintro ⟨t, ht, hh⟩
      obtain ⟨e, -, hm⟩ := parseClock_two_digit_hour _ t ht (by omega)
      have e2 : time = formatClock t.hour t.minute := String.ext e
      refine ⟨t.minute, hm, ?_⟩
      rcases hh with hh | hh
      · exact Or.inl (by rw [e2, hh])
      · exact Or.inr (by rw [e2, hh])
    · rintro ⟨minute, hm, rfl | rfl⟩
      · exact ⟨_, parseClock_formatClock 14 minute (by decide) hm, Or.inl rfl⟩
      · exact ⟨_, parseClock_formatClock 15 minute (by decide) hm, Or.inr rfl⟩
  · unfold afternoonPoints
    split
    · exact Or.inl rfl
    · exact Or.inr rfl
  · intro h
    unfold afternoonPoints
    rw [timeParse_error .clock time h]
    decide

/-! ## Lemmas on the handlers -/

theorem TrimPrefix_append (pre x : List Char) : TrimPrefix (pre ++ x) pre = x := by
  unfold TrimPrefix
  have h : pre.isPrefixOf (pre ++ x) = true :=
    List.isPrefixOf_iff_prefix.mpr (List.prefix_append pre x)
  rw [if_pos h, List.drop_left]

theorem TrimSuffix_append (x suf : List Char) : TrimSuffix (x ++ suf) suf = x := by
  unfold TrimSuffix
  have h : suf.isSuffixOf (x ++ suf) = true :=
    List.isSuffixOf_iff_suffix.mpr (List.suffix_append x suf)
  rw [if_pos h, List.length_append, Nat.add_sub_cancel, List.take_left]

theorem pathID_points_path (id : String) : pathID ("/receipts/" ++ id ++ "/points") = id := by
  unfold pathID
  have h : ("/receipts/" ++ id ++ "/points").toList =
      "/receipts/".toList ++ (id.toList ++ "/points".toList) := by
    simp only [String.toList, String.data_append, List.append_assoc]
  rw [h, TrimPrefix_append, TrimSuffix_append]
  rfl

theorem computePoints_ID (arch : Arch) (r : Receipt) (id : String) :
    computePoints arch { r with ID := id } = computePoints arch r := rfl

theorem handleReceipt_accept (decode : String → Option Receipt) (newID : String) (store : Store)
    (r : Request) (rcp : Receipt) (hm : r.Method = "POST") (hd : decode r.Body = some rcp) :
    handleReceipt decode newID store r =
      (store.set newID { rcp with ID := newID }, ⟨200, .id newID⟩) := by
  unfold handleReceipt
  simp only [hm, ne_eq, not_true_eq_false, if_false, hd]

theorem handleReceipt_wrong_method (decode : String → Option Receipt) (newID : String)
    (store : Store) (r : Request) (hm : r.Method ≠ "POST") :
    handleReceipt decode newID store r = (store, ⟨405, .text "Invalid request method"⟩) := by
  unfold handleReceipt
  rw [if_pos hm]

theorem handleReceipt_bad_body (decode : String → Option Receipt) (newID : String)
    (store : Store) (r : Request) (hm : r.Method = "POST") (hd : decode r.Body = none) :
    handleReceipt decode newID store r = (store, ⟨400, .text "Invalid JSON"⟩) := by
  unfold handleReceipt
  simp only [hm, ne_eq, not_true_eq_false, if_false, hd]

theorem Store.set_same (store : Store) (id : String) (rcp : Receipt) :
    store.set id rcp id = some rcp := by
  simp [Store.set]

theorem Store.set_other (store : Store) (id k : String) (rcp : Receipt) (h : k ≠ id) :
    store.set id rcp k = store k := by
  simp [Store.set, h]

theorem calculatePoints_found (arch : Arch) (store : Store) (r : Request) (rcp : Receipt)
    (h : store (pathID r.Path) = some rcp) :
    calculatePointsWithPoints arch store r = (store, ⟨200, .points ⟨computePoints arch rcp⟩⟩) := by
  simp only [calculatePointsWithPoints, h]

theorem calculatePoints_missing (arch : Arch) (store : Store) (r : Request)
    (h : store (pathID r.Path) = none) :
    calculatePointsWithPoints arch store r = (store, ⟨404, .text "Receipt not found"⟩) := by
  simp only [calculatePointsWithPoints, h]

/-! ## Claim C14 -/

/-- Claim C14: for every store and every receipt `R` decoded from the body
of a POST, the submission answers 200 with the new identifier, the store then
maps that identifier to `R` with its `ID` field set to it and every other
field unchanged, a points request for the identifier is answered 200, never
404, and its score is `computePoints(R)`: the score does not depend on the
`ID` field. -/
theorem C14_submit_then_points (arch : Arch) (decode : String → Option Receipt)
    (store : Store) (id : String) (r : Request) (R : Receipt)
    (hm : r.Method = "POST") (hd : decode r.Body = some R) :
    (handleReceipt decode id store r).2 = ⟨200, .id id⟩ ∧
    (handleReceipt decode id store r).1 id =
      some ⟨id, R.Retailer, R.Date, R.Time, R.Items, R.TotalAmount⟩ ∧
    (∀ q : Request, q.Path = "/receipts/" ++ id ++ "/points" →
      (calculatePointsWithPoints arch (handleReceipt decode id store r).1 q).2 =
        ⟨200, .points ⟨computePoints arch R⟩⟩ ∧
      (calculatePointsWithPoints arch (handleReceipt decode id store r).1 q).2.status ≠ 404) ∧
    (∀ other : String, computePoints arch { R with ID := other } = computePoints arch R) := by
  have ha := handleReceipt_accept decode id store r R hm hd
  have hs : (handleReceipt decode id store r).1 id = some { R with ID := id } := by
    rw [ha]
    exact Store.set_same _ _ _
  refine ⟨by rw [ha], hs, ?_, fun other => rfl⟩
  intro q hq
  have hp : (handleReceipt decode id store r).1 (pathID q.Path) = some { R with ID := id } := by
    rw [hq, pathID_points_path]
    exact hs
  rw [calculatePoints_found arch _ q _ hp]
  refine ⟨rfl, ?_⟩
  show (200 : Nat) ≠ 404
  decide

set_option maxRecDepth 100000 in
/-- Claim C14, an instance: the five-item receipt submitted to the empty
store under the identifier `r1`, then asked for its points. -/
theorem C14_witness_submit_five_items :
    (calculatePointsWithPoints amd64
      (handleReceipt (fun _ => some fiveItemReceipt) "r1" emptyStore
        ⟨"POST", "/receipts/process", "a receipt"⟩).1 ⟨"GET", "/receipts/r1/points", ""⟩).2 =
      ⟨200, .points ⟨28⟩⟩ := by
  have h := (C14_submit_then_points amd64 (fun _ => some fiveItemReceipt) emptyStore "r1"
    ⟨"POST", "/receipts/process", "a receipt"⟩ fiveItemReceipt rfl rfl).2.2.1
    ⟨"GET", "/receipts/r1/points", ""⟩ (by decide)
  rw [h.1]
  have h28 : computePoints amd64 fiveItemReceipt = 28 := by decide
  rw [h28]

/-! ## Claim C15 -/

/-- Claim C15: for every store and every request, the points handler answers
404 `Receipt not found`, without a score, when the identifier of the path is
not a key of the store, and answers 200 with `computePoints` of the stored
record when it is a key: it answers 404 exactly when the identifier is absent.
The store is left as it was. -/
theorem C15_points_lookup (arch : Arch) (store : Store) (r : Request) (id : String) :
    (store (pathID r.Path) = none →
      (calculatePointsWithPoints arch store r).2 = ⟨404, .text "Receipt not found"⟩) ∧
    (∀ rcp, store (pathID r.Path) = some rcp →
      (calculatePointsWithPoints arch store r).2 = ⟨200, .points ⟨computePoints arch rcp⟩⟩) ∧
    ((calculatePointsWithPoints arch store r).2.status = 404 ↔ store (pathID r.Path) = none) ∧
    (r.Path = "/receipts/" ++ id ++ "/points" →
      ((calculatePointsWithPoints arch store r).2.status = 404 ↔ store id = none) ∧
      (∀ rcp, store id = some rcp →
        (calculatePointsWithPoints arch store r).2 = ⟨200, .points ⟨computePoints arch rcp⟩⟩)) ∧
    (calculatePointsWithPoints arch store r).1 = store := by
  have key : (calculatePointsWithPoints arch store r).2.status = 404 ↔
      store (pathID r.Path) = none := by
    cases hs : store (pathID r.Path) with
    | none => simp [calculatePoints_missing arch store r hs]
    | some rcp => simp [calculatePoints_found arch store r rcp hs]
  refine ⟨?_, ?_, key, ?_, ?_⟩
  · intro hs
    rw [calculatePoints_missing arch store r hs]
  · intro rcp hs
    rw [calculatePoints_found arch store r rcp hs]
  · intro hp
    have hid : pathID r.Path = id := by rw [hp, pathID_points_path]
    rw [hid] at key
    refine ⟨key, ?_⟩
    intro rcp hs
    rw [← hid] at hs
    rw [calculatePoints_found arch store r rcp hs]
  · cases hs : store (pathID r.Path) with
    | none => rw [calculatePoints_missing arch store r hs]
    | some rcp => rw [calculatePoints_found arch store r rcp hs]

/-! ## Claim C16 -/

theorem calculatePoints_store (arch : Arch) (store : Store) (r : Request) :
    (calculatePointsWithPoints arch store r).1 = store := by
  cases hs : store (pathID r.Path) with
  | none => rw [calculatePoints_missing arch store r hs]
  | some rcp => rw [calculatePoints_found arch store r rcp hs]

theorem handleReceipt_keeps (decode : String → Option Receipt) (newID : String) (store : Store)
    (r : Request) (k : String) (hk : k ≠ newID) :
    (handleReceipt decode newID store r).1 k = store k := by
  by_cases hm : r.Method = "POST"
  · cases hd : decode r.Body with
    | none => rw [handleReceipt_bad_body decode newID store r hm hd]
    | some rcp =>
      rw [handleReceipt_accept decode newID store r rcp hm hd]
      exact Store.set_other _ _ _ _ hk
  · rw [handleReceipt_wrong_method decode newID store r hm]

theorem step_keeps (arch : Arch) (decode : String → Option Receipt) (store : Store) (op : Op)
    (id : String) (rcp : Receipt) (hid : store id = some rcp)
    (hfresh : match op with
      | .submit _ newID => store newID = none
      | .points _ => True) :
    (step arch decode store op).1 id = some rcp := by
  cases op with
  | submit r newID =>
    have hne : id ≠ newID := by
      intro h
      rw [h] at hid
      simp only at hfresh
      rw [hfresh] at hid
      exact absurd hid (by simp)
    simp only [step]
    rw [handleReceipt_keeps decode newID store r id hne, hid]
  | points r =>
    simp only [step]
    rw [calculatePoints_store, hid]

theorem run_keeps (arch : Arch) (decode : String → Option Receipt) (ops : List Op)
    (store : Store) (id : String) (rcp : Receipt) (hid : store id = some rcp)
    (hfresh : freshIDs arch decode store ops) :
    run arch decode store ops id = some rcp := by
  induction ops generalizing store with
  | nil => exact hid
  | cons op rest ih =>
    obtain ⟨h1, h2⟩ := hfresh
    exact ih _ (step_keeps arch decode store op id rcp hid h1) h2

/-- Claim C16: in every state of the store, a points request leaves the store
unchanged and a submission that is given a fresh identifier leaves every
stored key mapped to the same record; hence, after any sequence of later
requests whose submissions are given fresh identifiers, an issued identifier
is still mapped to its record and its points request is answered with the
same score as before. -/
theorem C16_stored_receipts_immutable (arch : Arch) (decode : String → Option Receipt)
    (store : Store) (ops : List Op) (id : String) (rcp : Receipt) (q : Request)
    (hid : store id = some rcp) (hfresh : freshIDs arch decode store ops)
    (hq : q.Path = "/receipts/" ++ id ++ "/points") :
    (∀ r : Request, (calculatePointsWithPoints arch store r).1 = store) ∧
    (∀ (r : Request) (newID : String), store newID = none →
      ∀ k rec, store k = some rec → (handleReceipt decode newID store r).1 k = some rec) ∧
    run arch decode store ops id = some rcp ∧
    (calculatePointsWithPoints arch (run arch decode store ops) q).2 =
      ⟨200, .points ⟨computePoints arch rcp⟩⟩ ∧
    (calculatePointsWithPoints arch (run arch decode store ops) q).2 =
      (calculatePointsWithPoints arch store q).2 := by
  have hrun := run_keeps arch decode ops store id rcp hid hfresh
  have hp : pathID q.Path = id := by rw [hq, pathID_points_path]
  have h1 : store (pathID q.Path) = some rcp := by rw [hp, hid]
  have h2 : run arch decode store ops (pathID q.Path) = some rcp := by rw [hp, hrun]
  refine ⟨calculatePoints_store arch store, ?_, hrun, ?_, ?_⟩
  · intro r newID hn k rec hk
    have hne : k ≠ newID := by
      intro h
      rw [h, hn] at hk
      exact absurd hk (by simp)
    rw [handleReceipt_keeps decode newID store r k hne, hk]
  · rw [calculatePoints_found arch _ q rcp h2]
  · rw [calculatePoints_found arch _ q rcp h2, calculatePoints_found arch _ q rcp h1]

set_option maxRecDepth 100000 in
/-- Claim C16, an instance: the five-item receipt stored under `r1`, then a
points request, a submission stored under `r2` and a rejected submission; the
score of `r1` is `28` before and after. -/
theorem C16_witness_later_requests :
    (calculatePointsWithPoints amd64
      (run amd64 (fun _ => some targetReceipt) (emptyStore.set "r1" fiveItemReceipt)
        [.points ⟨"GET", "/receipts/r1/points", ""⟩,
          .submit ⟨"POST", "/receipts/process", "a receipt"⟩ "r2",
          .submit ⟨"GET", "/receipts/process", "a receipt"⟩ "r3"])
      ⟨"GET", "/receipts/r1/points", ""⟩).2 = ⟨200, .points ⟨28⟩⟩ := by
  have h := (C16_stored_receipts_immutable amd64 (fun _ => some targetReceipt)
    (emptyStore.set "r1" fiveItemReceipt)
    [.points ⟨"GET", "/receipts/r1/points", ""⟩,
      .submit ⟨"POST", "/receipts/process", "a receipt"⟩ "r2",
      .submit ⟨"GET", "/receipts/process", "a receipt"⟩ "r3"]
    "r1" fiveItemReceipt ⟨"GET", "/receipts/r1/points", ""⟩ (by decide)
    ⟨trivial, by decide, by decide, trivial⟩ (by decide)).2.2.2.1
  rw [h]
  have h28 : computePoints amd64 fiveItemReceipt = 28 := by decide
  rw [h28]

/-! ## Claim C17 -/

/-- Claim C17: a request to the submission endpoint whose method is not POST
is answered 405, whatever its body, and a POST whose body fails to decode is
answered 400; in both cases the answer and the store do not depend on any
identifier and the store is left as it was.  The answer is 200 exactly for a
POST with a decodable body, and the store then differs only at the new
identifier: with a fresh identifier exactly one key is added. -/
theorem C17_rejected_submission (decode : String → Option Receipt) (store : Store)
    (id : String) (r : Request) :
    (r.Method ≠ "POST" →
      handleReceipt decode id store r = (store, ⟨405, .text "Invalid request method"⟩)) ∧
    (r.Method = "POST" → decode r.Body = none →
      handleReceipt decode id store r = (store, ⟨400, .text "Invalid JSON"⟩)) ∧
    ((handleReceipt decode id store r).2.status = 200 ↔
      r.Method = "POST" ∧ ∃ R, decode r.Body = some R) ∧
    ((handleReceipt decode id store r).2.status ≠ 200 →
      (handleReceipt decode id store r).1 = store ∧
      ∀ other : String, handleReceipt decode other store r = handleReceipt decode id store r) ∧
    ((handleReceipt decode id store r).2.status = 200 →
      (handleReceipt decode id store r).2.payload = .id id ∧
      (∀ k, k ≠ id → (handleReceipt decode id store r).1 k = store k) ∧
      (store id = none →
        ∀ k, ((handleReceipt decode id store r).1 k).isSome = true ↔
          (k = id ∨ (store k).isSome = true))) := by
  have h405 := handleReceipt_wrong_method decode id store r
  have h400 := handleReceipt_bad_body decode id store r
  refine ⟨h405, h400, ?_, ?_, ?_⟩
  · by_cases hm : r.Method = "POST"
    · cases hd : decode r.Body with
      | none => simp [h400 hm hd, hm]
      | some R => simp [handleReceipt_accept decode id store r R hm hd, hm]
    · simp [h405 hm, hm]
  · intro hs
    by_cases hm : r.Method = "POST"
    · cases hd : decode r.Body with
      | none =>
        refine ⟨by rw [h400 hm hd], fun other => ?_⟩
        rw [h400 hm hd, handleReceipt_bad_body decode other store r hm hd]
      | some R =>
        rw [handleReceipt_accept decode id store r R hm hd] at hs
        exact absurd rfl hs
    · refine ⟨by rw [h405 hm], fun other => ?_⟩
      rw [h405 hm, handleReceipt_wrong_method decode other store r hm]
  · intro hs
    by_cases hm : r.Method = "POST"
    · cases hd : decode r.Body with
      | none =>
        rw [h400 hm hd] at hs
        exact absurd hs (show ¬ (400 : Nat) = 200 by decide)
      | some R =>
        have ha := handleReceipt_accept decode id store r R hm hd
        refine ⟨by rw [ha], ?_, ?_⟩
        · intro k hk
          rw [ha]
          exact Store.set_other _ _ _ _ hk
        · intro hfresh k
          by_cases hk : k = id
          · rw [hk, ha]
            simp [Store.set_same]
          · rw [ha]
            simp only [Store.set_other _ _ _ _ hk]
            simp [hk]
    · rw [h405 hm] at hs
      exact absurd hs (show ¬ (405 : Nat) = 200 by decide)

/-- Claim C17, an instance: a GET and a POST with an undecodable body on the
empty store, and a POST with a decodable body. -/
theorem C17_witness_requests :
    (handleReceipt (fun _ => none) "r1" emptyStore ⟨"GET", "/receipts/process", "no receipt"⟩).2.status
      = 405 ∧
    (handleReceipt (fun _ => none) "r1" emptyStore ⟨"POST", "/receipts/process", "no receipt"⟩).2.status
      = 400 ∧
    (handleReceipt (fun _ => some targetReceipt) "r1" emptyStore
      ⟨"POST", "/receipts/process", "a receipt"⟩).2.status = 200 := by
  have h1 := (C17_rejected_submission (fun _ => none) emptyStore "r1"
    ⟨"GET", "/receipts/process", "no receipt"⟩).1 (by decide)
  have h2 := (C17_rejected_submission (fun _ => none) emptyStore "r1"
    ⟨"POST", "/receipts/process", "no receipt"⟩).2.1 rfl rfl
  have h3 := (C17_rejected_submission (fun _ => some targetReceipt) emptyStore "r1"
    ⟨"POST", "/receipts/process", "a receipt"⟩).2.2.1.mpr ⟨rfl, targetReceipt, rfl⟩
  exact ⟨by rw [h1], by rw [h2], h3⟩

/-! ## Claim C18 -/

/-- Claim C18: for every identifier, the identifier that the points handler
takes from the path `/receipts/` ++ id ++ `/points`, by trimming the prefix
`/receipts/` and then one suffix `/points`, is that identifier, and the
lookup is made on it. -/
theorem C18_path_id (arch : Arch) (store : Store) (id : String) (r : Request)
    (h : r.Path = "/receipts/" ++ id ++ "/points") :
    pathID r.Path = id ∧
    (store id = none → (calculatePointsWithPoints arch store r).2.status = 404) ∧
    (∀ rcp, store id = some rcp →
      (calculatePointsWithPoints arch store r).2 = ⟨200, .points ⟨computePoints arch rcp⟩⟩) ∧
    pathID "/receipts/7fb1377b-b223-49d9-a31a-5a02701dd310/points" =
      "7fb1377b-b223-49d9-a31a-5a02701dd310" ∧
    pathID "/receipts/a/points/points" = "a/points" := by
  have hid : pathID r.Path = id := by rw [h, pathID_points_path]
  refine ⟨hid, ?_, ?_, by decide, by decide⟩
  · intro hs
    simp only [calculatePointsWithPoints, hid, hs]
  · intro rcp hs
    simp only [calculatePointsWithPoints, hid, hs]

/-- Claim C18, an instance: the path of a generated identifier. -/
theorem C18_witness_uuid :
    pathID (Request.mk "GET" "/receipts/7fb1377b-b223-49d9-a31a-5a02701dd310/points" "").Path =
      "7fb1377b-b223-49d9-a31a-5a02701dd310" :=
  (C18_path_id amd64 emptyStore "7fb1377b-b223-49d9-a31a-5a02701dd310"
    ⟨"GET", "/receipts/7fb1377b-b223-49d9-a31a-5a02701dd310/points", ""⟩ (by decide)).1

/-! ## Claim C19 -/

theorem ofRat_false_cases (n d : Nat) :
    (∃ m e, F64.ofRat false n d = .fin false m e) ∨ F64.ofRat false n d = .inf false := by
  unfold F64.ofRat
  split
  · exact Or.inl ⟨_, _, rfl⟩
  · dsimp only
    split
    · exact Or.inr rfl
    · exact Or.inl ⟨_, _, rfl⟩

theorem trunc_false_nonneg (m : Nat) (e : Int) : 0 ≤ F64.trunc false m e := by
  unfold F64.trunc
  simp only [Bool.false_eq_true, if_false]
  exact Int.natCast_nonneg _

theorem integerValue_ceil_mul_nonneg (x : F64) (h : x.isNegative = false) :
    0 ≤ integerValue (F64.ceil (F64.mul x F64.fifth)) := by
  cases x with
  | nan => simp [F64.mul, F64.fifth, F64.ceil, integerValue]
  | inf s =>
    simp only [F64.isNegative] at h
    subst h
    simp [F64.mul, F64.fifth, F64.ceil, integerValue]
  | fin s m e =>
    by_cases hm : m = 0
    · subst hm
      cases s <;> simp [F64.mul, F64.fifth, F64.ofRat, F64.ceil, integerValue, F64.trunc]
    · have hs : s = false := by
        cases s
        · rfl
        · simp [F64.isNegative, hm] at h
      subst hs
      simp only [F64.mul, F64.fifth, Bool.xor_false]
      rcases ofRat_false_cases (m * 7205759403792794 * 2 ^ (e + -55).toNat)
        (2 ^ (-(e + -55)).toNat) with ⟨m2, e2, h2⟩ | h2
      · rw [h2]
        simp only [F64.ceil, integerValue]
        exact trunc_false_nonneg _ _
      · rw [h2]
        simp [F64.ceil, integerValue]

theorem maxZero_not_negative (x : F64) : (maxZero x).isNegative = false := by
  unfold maxZero
  by_cases h : x.isNegative = true
  · rw [if_pos h]
    rfl
  · rw [if_neg h]
    simpa using h

theorem maxZero_of_not_negative (x : F64) (h : x.isNegative = false) : maxZero x = x := by
  unfold maxZero
  rw [h]
  rfl

theorem cappedCeil_nonneg (item : Item) : 0 ≤ cappedCeil item :=
  integerValue_ceil_mul_nonneg _ (maxZero_not_negative _)

theorem price_not_negative (item : Item) (hp : priceNonneg item = true)
    (hf : fitsInt (priceCeil item) = true) : (parsePrice item.Price).1.isNegative = false := by
  unfold priceNonneg at hp
  unfold priceCeil at hf
  cases herr : (parsePrice item.Price).2 with
  | some err =>
    cases err with
    | syntax_ =>
      have hv := ParseFloat_syntax_value item.Price herr
      unfold parsePrice
      rw [hv]
      rfl
    | range_ =>
      obtain ⟨neg, hv⟩ := ParseFloat_range_value item.Price herr
      unfold parsePrice at hf
      rw [hv] at hf
      simp [F64.mul, F64.fifth, F64.ceil, fitsInt] at hf
  | none =>
    cases hx : (parsePrice item.Price).1 with
    | nan =>
      have hpair : parsePrice item.Price = (F64.nan, none) := Prod.ext hx herr
      rw [hpair] at hp
      simp at hp
    | inf neg =>
      have hpair : parsePrice item.Price = (F64.inf neg, none) := Prod.ext hx herr
      rw [hpair] at hp
      simpa using hp
    | fin neg m e =>
      have hpair : parsePrice item.Price = (F64.fin neg m e, none) := Prod.ext hx herr
      rw [hpair] at hp
      simpa using hp

theorem roundDollarPoints_le (s : String) : roundDollarPoints s ≤ 50 := by
  unfold roundDollarPoints
  split <;> decide

theorem quarterPoints_le (s : String) : quarterPoints s ≤ 25 := by
  unfold quarterPoints
  split <;> decide

theorem oddDayPoints_le (s : String) : oddDayPoints s ≤ 6 := by
  unfold oddDayPoints
  split <;> decide

theorem afternoonPoints_le (s : String) : afternoonPoints s ≤ 10 := by
  unfold afternoonPoints
  split <;> decide

theorem specDescriptionPoints_le_capped (items : List Item)
    (h : ∀ item ∈ items, qualifies item = true →
      (parsePrice item.Price).1.isNegative = false) :
    specDescriptionPoints items ≤ (items.map cappedCeil).sum := by
  induction items with
  | nil => simp [specDescriptionPoints]
  | cons item rest ih =>
    have ih := ih fun it hit => h it (List.mem_cons_of_mem _ hit)
    unfold specDescriptionPoints at ih ⊢
    by_cases hq : qualifies item = true
    · have hn := h item (List.mem_cons_self _ _) hq
      have he : integerValue (priceCeil item) = cappedCeil item := by
        unfold cappedCeil priceCeil
        rw [maxZero_of_not_negative _ hn]
      simp only [List.filter_cons, hq, if_true, List.map_cons, List.sum_cons, he]
      omega
    · have hc := cappedCeil_nonneg item
      simp only [List.filter_cons, hq, List.map_cons, List.sum_cons]
      simp only [Bool.false_eq_true, if_false]
      omega

set_option maxRecDepth 100000 in
/-- Claim C19, refuted as stated: both prices of `overflowReceipt` parse to
the number `4 * 10^19`, which is not negative, and `computePoints` returns
`-2446744073709551611`, below `countAlphanumeric(R.Retailer) = 0`; the item
`hugePriceItem`, whose price `10^30` is not negative either, contributes
`-2^63` on amd64.  The upper bound fails as well, without any overflow: the
only price of `roundedPriceReceipt` is `2^60`, the bound with
`ceiling(max(price, 0) * 0.2)` taken on the number written is
`230584300921369487`, and `computePoints` returns `230584300921369499`,
because `0.2` and the product are float64 values. -/
theorem C19_counterexample_overflow :
    (∀ item ∈ overflowReceipt.Items, priceNonneg item = true) ∧
    countAlphanumeric overflowReceipt.Retailer = 0 ∧
    computePoints amd64 overflowReceipt = -2446744073709551611 ∧
    ¬ (countAlphanumeric overflowReceipt.Retailer ≤ computePoints amd64 overflowReceipt) ∧
    priceNonneg hugePriceItem = true ∧
    ¬ (0 ≤ itemPoints amd64 hugePriceItem) ∧
    (∀ item ∈ roundedPriceReceipt.Items, priceNonneg item = true) ∧
    (∀ item ∈ roundedPriceReceipt.Items, fitsInt (priceCeil item) = true) ∧
    specPoints roundedPriceReceipt = 230584300921369499 ∧
    claimedUpperBound roundedPriceReceipt = 230584300921369487 ∧
    computePoints amd64 roundedPriceReceipt = 230584300921369499 ∧
    computePoints arm64 roundedPriceReceipt = 230584300921369499 ∧
    ¬ (computePoints amd64 roundedPriceReceipt ≤ claimedUpperBound roundedPriceReceipt) := by
  decide!

/-- Claim C19, amended: for every receipt in which each item's price either
fails to parse or parses to a float64 `p >= 0`, and in which the float64
`math.Ceil(p * 0.2)` of every qualifying item is finite and lies in the `int`
range and the sum of the seven contributions does not exceed the greatest
`int`, every rule contribution is non-negative,
`computePoints(R) >= countAlphanumeric(R.Retailer) >= 0`, and
`computePoints(R)` is at most `countAlphanumeric(R.Retailer) + 75 +
5 * floor(n / 2) + 6 + 10` plus the sum over all `n` items of the value of the
float64 `math.Ceil(max(p, 0) * 0.2)` (`0` when it is not finite), where `p`
is the float64 that `parsePrice` returns for the price and the product is a
float64 product. -/
theorem C19_score_bounds (arch : Arch) (r : Receipt)
    (hprice : ∀ item ∈ r.Items, priceNonneg item = true)
    (hfit : ∀ item ∈ r.Items, qualifies item = true → fitsInt (priceCeil item) = true)
    (hsum : specPoints r ≤ maxInt) :
    (0 ≤ retailerPoints r.Retailer ∧ 0 ≤ roundDollarPoints r.TotalAmount ∧
      0 ≤ quarterPoints r.TotalAmount ∧ 0 ≤ itemPairPoints r.Items ∧
      (∀ item ∈ r.Items, 0 ≤ itemPoints arch item) ∧ 0 ≤ descriptionPoints arch r.Items ∧
      0 ≤ oddDayPoints r.Date ∧ 0 ≤ afternoonPoints r.Time) ∧
    0 ≤ countAlphanumeric r.Retailer ∧
    countAlphanumeric r.Retailer ≤ computePoints arch r ∧
    computePoints arch r ≤ specUpperBound r := by
  have hneg : ∀ item ∈ r.Items, qualifies item = true →
      (parsePrice item.Price).1.isNegative = false :=
    fun item hi hq => price_not_negative item (hprice item hi) (hfit item hi hq)
  have hval : ∀ item ∈ r.Items, qualifies item = true → 0 ≤ integerValue (priceCeil item) :=
    fun item hi hq => integerValue_ceil_mul_nonneg _ (hneg item hi hq)
  have hitem : ∀ item ∈ r.Items, 0 ≤ itemPoints arch item := by
    intro item hi
    unfold itemPoints
    by_cases hq : qualifies item = true
    · rw [if_pos hq, toInt_of_fitsInt arch (hfit item hi hq)]
      exact hval item hi hq
    · rw [if_neg hq]
  have hd := descriptionPoints_eq_spec arch r.Items hfit
  have hdn := specDescriptionPoints_nonneg r.Items hval
  have hdc := specDescriptionPoints_le_capped r.Items hneg
  have h1 := retailerPoints_nonneg r.Retailer
  have h2 := roundDollarPoints_nonneg r.TotalAmount
  have h3 := quarterPoints_nonneg r.TotalAmount
  have h4 := itemPairPoints_nonneg r.Items
  have h6 := oddDayPoints_nonneg r.Date
  have h7 := afternoonPoints_nonneg r.Time
  have u2 := roundDollarPoints_le r.TotalAmount
  have u3 := quarterPoints_le r.TotalAmount
  have u6 := oddDayPoints_le r.Date
  have u7 := afternoonPoints_le r.Time
  have hs : rulesSum arch r = specPoints r := by
    unfold rulesSum specPoints
    rw [hd]
  have hlo : minInt ≤ specPoints r := by
    unfold specPoints minInt
    omega
  have he : computePoints arch r = specPoints r := by
    rw [computePoints_eq_wrapInt, hs, wrapInt_of_range hlo hsum]
  have hr : retailerPoints r.Retailer = countAlphanumeric r.Retailer := rfl
  have hpair := itemPairPoints_eq_floor r.Items
  refine ⟨⟨h1, h2, h3, h4, hitem, by rw [hd]; exact hdn, h6, h7⟩, by rw [← hr]; exact h1, ?_, ?_⟩
  · rw [he]
    unfold specPoints
    rw [hr] at *
    omega
  · rw [he]
    unfold specPoints specUpperBound
    rw [← hpair, ← hr]
    omega

set_option maxRecDepth 100000 in
/-- Claim C19, an instance: the five-item receipt scores `28`, between
`countAlphanumeric("Target") = 6` and the bound `117`. -/
theorem C19_witness_fiveItemReceipt :
    countAlphanumeric fiveItemReceipt.Retailer ≤ computePoints amd64 fiveItemReceipt ∧
    computePoints amd64 fiveItemReceipt ≤ specUpperBound fiveItemReceipt := by
  have h := C19_score_bounds amd64 fiveItemReceipt (by decide) (by decide) (by decide)
  exact ⟨h.2.2.1, h.2.2.2⟩

/-! ## Claim C20 -/

theorem goLen_ascii (l : List Char) (h : ∀ c ∈ l, c.toNat < 128) : goLen l = l.length := by
  induction l with
  | nil => rfl
  | cons c cs ih =>
    have hc : c.toNat < 128 := h c (List.mem_cons_self _ _)
    have ih := ih fun x hx => h x (List.mem_cons_of_mem _ hx)
    unfold goLen at ih ⊢
    have h1 : utf8Len c = 1 := by
      unfold utf8Len
      rw [if_pos (by omega)]
    simp only [List.map_cons, List.sum_cons, List.length_cons, ih, h1]
    omega

theorem mem_TrimSpace (l : List Char) (c : Char) (h : c ∈ TrimSpace l) : c ∈ l := by
  unfold TrimSpace at h
  rw [List.mem_reverse] at h
  have h1 := (List.dropWhile_sublist isSpace).subset h
  rw [List.mem_reverse] at h1
  exact (List.dropWhile_sublist isSpace).subset h1

set_option maxRecDepth 100000 in
/-- Claim C20: the description-length rule measures the trimmed description
in UTF-8 bytes.  For a description made of ASCII characters only, the byte
length and the number of characters agree; the description `€`, of one
character and three bytes, qualifies although its number of characters is not
divisible by 3; `€€€`, of three characters and nine bytes, qualifies under
both measures. -/
theorem C20_length_in_bytes (arch : Arch) (description price : String) :
    qualifies ⟨description, price⟩ =
      decide (3 ∣ (String.mk (TrimSpace description.toList)).utf8ByteSize) ∧
    ((∀ c ∈ description.toList, c.toNat < 128) →
      goLen (TrimSpace description.toList) = (TrimSpace description.toList).length ∧
      qualifies ⟨description, price⟩ = decide (3 ∣ (TrimSpace description.toList).length)) ∧
    qualifies ⟨"€", price⟩ = true ∧
    (TrimSpace "€".toList).length = 1 ∧ goLen (TrimSpace "€".toList) = 3 ∧
    itemPoints arch ⟨"€", "6.49"⟩ = 2 ∧
    qualifies ⟨"€€€", price⟩ = true ∧
    (TrimSpace "€€€".toList).length = 3 ∧ goLen (TrimSpace "€€€".toList) = 9 := by
  have hq : ∀ d p : String, qualifies ⟨d, p⟩ = decide (3 ∣ goLen (TrimSpace d.toList)) := by
    intro d p
    unfold qualifies
    rw [Bool.eq_iff_iff, beq_iff_eq, decide_eq_true_eq, Nat.dvd_iff_mod_eq_zero]
  have h1 : decide (3 ∣ goLen (TrimSpace "€".toList)) = true := by decide
  have h3 : decide (3 ∣ goLen (TrimSpace "€€€".toList)) = true := by decide
  have hc : F64.ceil (F64.mul (parsePrice "6.49").1 F64.fifth) = .fin false 2 0 := by decide
  refine ⟨?_, ?_, by rw [hq, h1], by decide, by decide, ?_, by rw [hq, h3], by decide,
    by decide⟩
  · rw [hq, ← goLen_eq_utf8ByteSize]
    rfl
  · intro hascii
    have hl := goLen_ascii (TrimSpace description.toList)
      fun c hc => hascii c (mem_TrimSpace _ c hc)
    exact ⟨hl, by rw [hq, hl]⟩
  · rw [itemPoints_of_qualifies arch "€" "6.49" (by rw [hq, h1]), hc,
      toInt_of_fitsInt arch (show fitsInt (.fin false 2 0) = true by decide)]
    rfl

/-! ## Claim C1

The claim is about the whole of `computePoints`; its theorem uses the lemmas
on every rule and is stated after them. -/

theorem descriptionPoints_eq_filter (arch : Arch) (items : List Item) :
    descriptionPoints arch items =
      ((items.filter qualifies).map fun item =>
        toInt arch (F64.ceil (F64.mul (parsePrice item.Price).1 F64.fifth))).sum := by
  induction items with
  | nil => rfl
  | cons item rest ih =>
    unfold descriptionPoints at ih ⊢
    by_cases hq : qualifies item = true
    · simp only [List.map_cons, List.sum_cons, List.filter_cons, hq, if_true, itemPoints,
        priceCeil, ih]
    · simp only [List.map_cons, List.sum_cons, List.filter_cons, hq, itemPoints, ih]
      simp

theorem qualifies_iff (item : Item) :
    qualifies item = true ↔ 3 ∣ goLen (TrimSpace item.Description.toList) := by
  unfold qualifies
  rw [beq_iff_eq, Nat.dvd_iff_mod_eq_zero]

theorem toInt_ceil_of_fitsInt (arch : Arch) (x : F64) (h : fitsInt (F64.ceil x) = true) :
    toInt arch (F64.ceil x) = ⌈F64.toRat x⌉ := by
  obtain ⟨s, m, e, hx⟩ := fitsInt_ceil_finite h
  rw [toInt_of_fitsInt arch h, hx, integerValue_ceil_fin]

theorem oddDayPoints_eq (date : String) :
    oddDayPoints date =
      match parseDate date.toList with
      | some t => if t.day % 2 = 1 then 6 else 0
      | none => 6 := by
  cases hp : parseDate date.toList with
  | some t => exact oddDayPoints_of_parse date t hp
  | none =>
    unfold oddDayPoints timeParse
    simp only [hp]
    decide

theorem afternoonPoints_eq (time : String) :
    afternoonPoints time =
      match parseClock time.toList with
      | some t => if 14 ≤ t.hour ∧ t.hour < 16 then 10 else 0
      | none => 0 := by
  unfold afternoonPoints timeParse
  cases hp : parseClock time.toList with
  | some t =>
    simp only [Time.Hour]
    by_cases hc : 14 ≤ t.hour ∧ t.hour < 16
    · have hc2 : (t.hour : Int) ≥ 14 ∧ (t.hour : Int) < 16 := by omega
      simp only [hc, hc2, and_self, if_true]
    · have hc2 : ¬ ((t.hour : Int) ≥ 14 ∧ (t.hour : Int) < 16) := by omega
      simp only [hc, hc2, if_false]
  | none =>
    show (if Time.zeroTime.Hour ≥ 14 ∧ Time.zeroTime.Hour < 16 then (10 : Int) else 0) = 0
    decide

set_option maxRecDepth 100000 in
/-- Claim C1, refuted as stated.  For `overflowReceipt` (two items with an
empty description and price `4e19`) every `ceiling(price * 0.2)` is
`8 * 10^18`, the seven contributions sum to `16000000000000000005`, and
`computePoints` returns `-2446744073709551611`, on either platform.  For
`roundedReceipt` the contributions as worded sum to `2` (the total
`100.00000000000000001` is no whole number and no multiple of `0.25`, and
`ceiling(price * 0.2)` is `2` for the price `5.0000000000000001`), and
`computePoints` returns `76 = 50 + 25 + 1`, the total and the price being read
as the float64 values `100` and `5`.  For `badDateReceipt`, whose date has no
day of the month, the contributions as worded sum to `0` and `computePoints`
returns `6`.  The total `Inf` is no whole number and earns `50`. -/
theorem C1_counterexample_overflow :
    claimedPoints overflowReceipt = 16000000000000000005 ∧
    specPoints overflowReceipt = 16000000000000000005 ∧
    computePoints amd64 overflowReceipt = -2446744073709551611 ∧
    computePoints arm64 overflowReceipt = -2446744073709551611 ∧
    computePoints amd64 overflowReceipt ≠ specPoints overflowReceipt ∧
    claimedPoints roundedReceipt = 2 ∧
    computePoints amd64 roundedReceipt = 76 ∧
    computePoints arm64 roundedReceipt = 76 ∧
    claimedPoints badDateReceipt = 0 ∧
    computePoints amd64 badDateReceipt = 6 ∧
    parsePrice "Inf" = (F64.inf false, none) ∧
    roundDollarPoints "Inf" = 50 := by
  decide

/-- Claim C1, amended: `computePoints` returns the sum, reduced modulo `2^64`
into the `int` range, of seven contributions, each a function of its own field
of the receipt: (1) the number of characters of the retailer name among `A-Z`,
`a-z`, `0-9`; (2) 50 if the float64 that `parsePrice` returns for the total is
an infinity or a finite whole number, else 0; (3) 25 if that float64 is a
finite integer multiple of `0.25`, else 0; (4) `5 * floor(n / 2)` for `n`
items; (5) the sum, over the items whose trimmed description has a byte length
divisible by 3, of `int(math.Ceil(p * 0.2))`, with `p` the float64 parsed
from the price and the product a float64 product, where `int(math.Ceil(x))`
is `ceiling(x)` whenever that is finite and lies in the `int` range; (6) 6 if
the date parses with an odd day or does not parse, else 0; (7) 10 if the time
parses with an hour `h`, `14 <= h < 16`, else 0.  `computePoints` returns
exactly the sum of the contributions whenever each `math.Ceil(p * 0.2)` of
(5) is finite and lies in the `int` range and the sum lies in that range. -/
theorem C1_computePoints_sum_of_rules (arch : Arch) (r : Receipt) :
    computePoints arch r =
      wrapInt (retailerPoints r.Retailer + roundDollarPoints r.TotalAmount +
        quarterPoints r.TotalAmount + itemPairPoints r.Items + descriptionPoints arch r.Items +
        oddDayPoints r.Date + afternoonPoints r.Time) ∧
    retailerPoints r.Retailer =
      (r.Retailer.toList.countP fun ch => decide (ch ∈ asciiAlphanumerics) : Nat) ∧
    (roundDollarPoints r.TotalAmount = 50 ∨ roundDollarPoints r.TotalAmount = 0) ∧
    (roundDollarPoints r.TotalAmount = 50 ↔
      (∃ neg, (parsePrice r.TotalAmount).1 = F64.inf neg) ∨
      (∃ s m e, (parsePrice r.TotalAmount).1 = F64.fin s m e ∧
        ∃ z : ℤ, F64.toRat (.fin s m e) = z)) ∧
    (quarterPoints r.TotalAmount = 25 ∨ quarterPoints r.TotalAmount = 0) ∧
    (quarterPoints r.TotalAmount = 25 ↔
      ∃ s m e, (parsePrice r.TotalAmount).1 = F64.fin s m e ∧
        ∃ z : ℤ, F64.toRat (.fin s m e) = z * (1 / 4)) ∧
    itemPairPoints r.Items = 5 * ⌊(r.Items.length : ℚ) / 2⌋ ∧
    descriptionPoints arch r.Items =
      ((r.Items.filter fun item =>
          decide (3 ∣ goLen (TrimSpace item.Description.toList))).map fun item =>
        toInt arch (F64.ceil (F64.mul (parsePrice item.Price).1 F64.fifth))).sum ∧
    (∀ x : F64, fitsInt (F64.ceil x) = true → toInt arch (F64.ceil x) = ⌈F64.toRat x⌉) ∧
    oddDayPoints r.Date =
      (match parseDate r.Date.toList with
        | some t => if t.day % 2 = 1 then 6 else 0
        | none => 6) ∧
    afternoonPoints r.Time =
      (match parseClock r.Time.toList with
        | some t => if 14 ≤ t.hour ∧ t.hour < 16 then 10 else 0
        | none => 0) ∧
    ((∀ item ∈ r.Items, qualifies item = true → fitsInt (priceCeil item) = true) →
      minInt ≤ specPoints r → specPoints r ≤ maxInt → computePoints arch r = specPoints r) := by
  have hp : (fun ch => decide (ch ∈ asciiAlphanumerics)) = isAlphaNumeric := by
    funext ch
    rw [Bool.eq_iff_iff, decide_eq_true_eq]
    exact (isAlphaNumeric_iff_mem ch).symm
  have hq : (fun item : Item => decide (3 ∣ goLen (TrimSpace item.Description.toList))) =
      qualifies := by
    funext item
    rw [Bool.eq_iff_iff, decide_eq_true_eq]
    exact (qualifies_iff item).symm
  refine ⟨computePoints_eq_wrapInt arch r, ?_, roundDollarPoints_cases _,
    roundDollarPoints_eq_fifty_iff _, quarterPoints_cases _, quarterPoints_eq_twentyfive_iff _,
    itemPairPoints_eq_floor _, ?_, fun x hx => toInt_ceil_of_fitsInt arch x hx,
    oddDayPoints_eq _, afternoonPoints_eq _, fun hfit hlo hhi => ?_⟩
  · rw [hp]
    exact countAlphanumeric_eq_countP r.Retailer
  · rw [hq]
    exact descriptionPoints_eq_filter arch r.Items
  · have hd := descriptionPoints_eq_spec arch r.Items hfit
    have hs : rulesSum arch r = specPoints r := by
      unfold rulesSum specPoints
      rw [hd]
    rw [computePoints_eq_wrapInt, hs, wrapInt_of_range hlo hhi]

set_option maxRecDepth 100000 in
/-- Claim C1, an instance: the five-item receipt scores `28`, the sum of its
contributions `6 + 0 + 0 + 10 + (3 + 3) + 6 + 0`. -/
theorem C1_witness_fiveItemReceipt :
    computePoints amd64 fiveItemReceipt = 28 ∧
    specPoints fiveItemReceipt = 6 + 0 + 0 + 10 + (3 + 3) + 6 + 0 := by
  have h := (C1_computePoints_sum_of_rules amd64 fiveItemReceipt).2.2.2.2.2.2.2.2.2.2.2
    (by decide) (by decide) (by decide)
  rw [h]
  decide

end ReceiptAPI
